import Mathlib

/-!
Verification development for the video-analyzer core services.

This file gives a shallow embedding, in Lean 4 over `ℚ`, of the pure logic of
the repository's core pipeline:

 * `backend/app/services/violation_analysis_service.py`
   (audio trigger extraction, combine-and-deduplicate pass),
 * `backend/app/services/enhanced_video_analysis.py`
   (blackout detection, usable-segment construction, uniform and intelligent
   frame sampling, per-frame severity/concern scoring, provider fallback,
   violation priority scoring),
 * `backend/app/services/audio_analysis_service.py`
   (hallucination detection, per-segment transcription loop).

Python floats are modelled as rationals, Python `int()` truncation on
nonnegative values as a floor to `ℕ`, Python's stable `list.sort` as
`List.insertionSort` (also a stable sort, hence extensionally identical on
every input), and external effectful collaborators (OpenCV frame reads,
regex engines, Whisper, inference providers) as oracle function parameters,
so that every theorem quantifies over all possible behaviours of the
external world while the repository's own logic is embedded faithfully.
-/

/-- Python `int(q)` for a nonnegative float value: truncation equals floor. -/
def pyIntNat (q : ℚ) : ℕ := (⌊q⌋).toNat

/-- Python `str.lower()` (ASCII case folding suffices for all texts involved). -/
def strLower (s : String) : String := String.mk (s.data.map Char.toLower)

/-- Is `needle` a prefix of `hay` (on character lists)? -/
def listPrefixOf : List Char → List Char → Bool
  | [], _ => true
  | _ :: _, [] => false
  | a :: as, b :: bs => a == b && listPrefixOf as bs

/-- Is `needle` a contiguous substring of `hay` (on character lists)? -/
def listContainsSub (needle : List Char) : List Char → Bool
  | [] => match needle with | [] => true | _ :: _ => false
  | b :: bs => listPrefixOf needle (b :: bs) || listContainsSub needle bs

/-- Python's `needle in hay` substring test on strings. -/
def strContains (hay needle : String) : Bool := listContainsSub needle.data hay.data

/-- Python whitespace characters recognised by `str.split()`. -/
def isPySpace (c : Char) : Bool :=
  c == ' ' || c == '\t' || c == '\n' || c == '\r' || c == '\x0b' || c == '\x0c'

/-- Python `str.split()` with no argument: maximal runs of non-whitespace. -/
def splitWords (s : List Char) : List (List Char) :=
  (s.splitOnP isPySpace).filter (· ≠ [])

/-- The word list of a string, as Python's `text.split()` computes it. -/
def pyWords (s : String) : List (List Char) := splitWords s.data

/-- Python `str.strip()`: drop leading and trailing whitespace. -/
def strStrip (s : String) : String :=
  String.mk (((s.data.dropWhile isPySpace).reverse.dropWhile isPySpace).reverse)

/-!
## Violation analysis service

`violation_analysis_service.py`.  A violation is a dict with timestamp, type,
description, severity, confidence, source and a context payload; we model the
fields the dict carries (the formatted-timestamp field is a pure rendering of
`timestamp` and is omitted, the frame/audio context payload is modelled as an
opaque string).
-/

/-- One violation entry of the merged timeline (`violation_analysis_service.py`). -/
structure Violation where
  timestamp : ℚ
  vtype : String
  description : String
  severity : String
  confidence : ℚ
  source : String
  context : String
deriving DecidableEq, Repr

/-- Sort key used by `_combine_and_deduplicate` and `analyze`: the timestamp. -/
def violationLe (a b : Violation) : Prop := a.timestamp ≤ b.timestamp

instance : DecidableRel violationLe :=
  fun a b => inferInstanceAs (Decidable (a.timestamp ≤ b.timestamp))

instance : IsTotal Violation violationLe := ⟨fun a b => le_total a.timestamp b.timestamp⟩

instance : IsTrans Violation violationLe := ⟨fun _ _ _ h h' => le_trans h h'⟩

/-- `combined.sort(key=lambda x: x['timestamp'])` — Python's stable sort,
modelled by the (also stable) insertion sort. -/
def sortByTimestamp (l : List Violation) : List Violation :=
  List.insertionSort violationLe l

/-- The scanning loop of `_combine_and_deduplicate` (lines 140-156): walk the
sorted list keeping track of the last violation that was kept; a current
violation with the same type within 5 seconds of the last kept one is merged
into it (raising its confidence to the maximum of the two) instead of being
appended.  The Python loop mutates the kept dict in place; carrying the
evolving kept violation and emitting it when the next non-duplicate arrives
yields the same output list. -/
def dedupScan : Violation → List Violation → List Violation
  | prev, [] => [prev]
  | prev, cur :: rest =>
    if cur.vtype = prev.vtype ∧ |cur.timestamp - prev.timestamp| < 5 then
      dedupScan
        (if prev.confidence < cur.confidence then
          { prev with confidence := cur.confidence } else prev) rest
    else
      prev :: dedupScan cur rest

/-- `_combine_and_deduplicate(frame_violations, audio_violations)`. -/
def combineAndDeduplicate (frameViolations audioViolations : List Violation) :
    List Violation :=
  let combined := frameViolations ++ audioViolations
  match sortByTimestamp combined with
  | [] => []
  | v :: rest => dedupScan v rest

/-- One audio event trigger of the `audio_event_triggers` table:
a regex pattern together with severity, confidence and description. -/
structure AudioTrigger where
  pattern : String
  severity : String
  confidence : ℚ
  description : String
deriving DecidableEq, Repr

/-- The `audio_event_triggers` table of `ViolationAnalysisService.__init__`. -/
def audioEventTriggers : List (String × List AudioTrigger) :=
  [("Use of Force",
    [⟨"\\btaser\\b|\\btaze\\b", "high", 9/10,
      "Taser deployment threatened or initiated"⟩,
     ⟨"\\b(dog|k-9).*(bite|fight|rip)\\b", "high", 85/100,
      "K-9 unit deployment threatened or initiated"⟩,
     ⟨"\\bstop moving\\b|\\b(help me.?)\x7b2,\x7d\\b", "high", 75/100,
      "Physical struggle and restraint of suspect"⟩]),
   ("Escalation",
    [⟨"\\bget out right now\\b|\\bget your hands up\\b", "medium", 8/10,
      "Officers issuing direct commands to suspect"⟩,
     ⟨"\\blast warning\\b|\\blast chance\\b", "medium", 88/100,
      "Final warning issued before action"⟩])]

/-- `_estimate_time_offset(word_count, words_per_second)`: the offset in
seconds of a word inside a segment, `word_count / words_per_second`. -/
def estimateTimeOffset (word_count : ℕ) (words_per_second : ℕ) : ℚ :=
  (word_count : ℚ) / (words_per_second : ℚ)

/-- `len(text[:start_char].split())`: how many words precede character
position `start_char` in `text`. -/
def wordsBefore (text : String) (start_char : ℕ) : ℕ :=
  (splitWords (text.data.take start_char)).length

/-- `details['description'].split(':')[0]`: the description up to the first
colon, used as the violation type for audio violations. -/
def typeOfDescription (d : String) : String :=
  String.mk (d.data.takeWhile (fun c => c ≠ ':'))

/-- A transcription segment as consumed by `_extract_violations_from_audio`
(the dict/dataclass access path reads `text` and `start_time`). -/
structure TranscriptionSegIn where
  text : String
  start_time : ℚ
deriving DecidableEq, Repr

/-- The violation built for one regex match at character position `p` of the
lowered segment text (`_extract_violations_from_audio`, lines 115-128).
`getAudioContext` abstracts `_get_audio_context` (an opaque snippet payload). -/
def mkAudioViolation (getAudioContext : String → String → String)
    (segStart : ℚ) (loweredText : String) (trig : AudioTrigger)
    (p : ℕ × String) : Violation :=
  { timestamp := segStart + estimateTimeOffset (wordsBefore loweredText p.1) 3
    vtype := typeOfDescription trig.description
    description := trig.description
    severity := trig.severity
    confidence := trig.confidence
    source := "audio"
    context := getAudioContext loweredText p.2 }

/-- `_extract_violations_from_audio`: for every transcription segment, every
category, every trigger pattern and every regex match (abstracted by the
`finditer` oracle returning the `(match.span()[0], match.group(0))` pairs),
append one audio violation.  The nested `for` loops with `violations.append`
are modelled by nested flattened maps, which produce the appends in the same
order. -/
def extractViolationsFromAudio (finditer : String → String → List (ℕ × String))
    (getAudioContext : String → String → String)
    (segments : List TranscriptionSegIn) : List Violation :=
  (segments.map (fun seg =>
    (audioEventTriggers.map (fun cat =>
      (cat.2.map (fun trig =>
        (finditer trig.pattern (strLower seg.text)).map
          (mkAudioViolation getAudioContext seg.start_time (strLower seg.text)
            trig))).flatten)).flatten)).flatten

/-!
## Violation priority scoring

`enhanced_video_analysis.py`, `_calculate_violation_priority`.
-/

/-- The `severity_multipliers` dict with its `.get(severity, 1.0)` default. -/
def severityMultiplier (s : String) : ℚ :=
  if s = "low" then 7/10
  else if s = "medium" then 1
  else if s = "high" then 13/10
  else if s = "critical" then 3/2
  else 1

/-- The closest audio segment attached as context to a violation
(`audio_context['closest_segment']`): its confidence, time offset from the
violation, and text. -/
structure AudioClosest where
  confidence : ℚ
  time_offset : ℚ
  text : String
deriving DecidableEq, Repr

/-- The `priority_keywords` list of `_calculate_violation_priority`. -/
def priorityKeywords : List String :=
  ["stop", "help", "please", "no", "don\x27t", "officer", "sir", "ma\x27am"]

/-- `_calculate_violation_priority(frame_analysis, audio_context)`: confidence
times the severity multiplier, a ×1.2 bonus for a high-confidence close audio
snippet, a ×1.1 bonus when that snippet contains a priority keyword, capped
at 1. -/
def calculateViolationPriority (confidence : ℚ) (severity : String)
    (audioCtx : Option AudioClosest) : ℚ :=
  let base := confidence * severityMultiplier severity
  let withBonus :=
    match audioCtx with
    | none => base
    | some closest =>
      let b1 := if 7/10 < closest.confidence ∧ |closest.time_offset| < 10 then
          base * (12/10) else base
      if priorityKeywords.any (fun k => strContains (strLower closest.text) k) then
        b1 * (11/10)
      else b1
  min withBonus 1

/-- Rank of the four severity levels named by the spec
(low < medium < high < critical). -/
def sevRank (s : String) : ℕ :=
  if s = "low" then 0
  else if s = "medium" then 1
  else if s = "high" then 2
  else 3

/-- The four severity levels with configured multipliers. -/
def severityLevels : List String := ["low", "medium", "high", "critical"]

/-!
## Audio analysis service

`audio_analysis_service.py`: hallucination detection and the per-segment
transcription loop.
-/

/-- The `hallucination_patterns` regex table of `AudioAnalysisService.__init__`. -/
def hallucinationPatterns : List String :=
  ["\\b(thank you|thanks)\\b.*\\b(watching|listening)\\b",
   "\\bsubscribe\\b.*\\bchannel\\b",
   "\\blike\\b.*\\bcomment\\b",
   "\\b(background|ambient)\\s+music\\b.*\\b(playing|in the background)\\b",
   "^\\s*[♪♫🎵🎶]+\\s*$",
   "^\\s*\\[.*music.*\\]\\s*$",
   "^\\s*\\(.*static.*\\)\\s*$",
   "^\\s*\\[.*static.*\\]\\s*$",
   "^\\s*\\(.*silence.*\\)\\s*$",
   "^\\s*\\[.*silence.*\\]\\s*$"]

/-- The `generic_phrases` filler list of `detect_hallucinations`. -/
def genericPhrases : List String := ["um", "uh", "you know", "like", "so", "well"]

/-- One appended hallucination indicator.  The Python code appends
human-readable strings; the constructors carry exactly the data interpolated
into those strings. -/
inductive HallucinationReason where
  | suspiciousPattern (pattern : String)
  | lowConfidence (confidence : ℚ)
  | excessiveRepetition
  | unrealisticRate
  | excessiveFiller
  | nonEnglish (language : String)
  | unrealisticSpeechRate (rate : ℚ)
deriving DecidableEq, Repr

/-- The largest repetition count of any single word of `words`
(`max(word_counts.values())`, and 0 for an empty list). -/
def maxRepetition (words : List (List Char)) : ℕ :=
  (words.map (fun w => words.count w)).foldr max 0

/-- `detect_hallucinations(text, confidence, segment_duration)`.  The `re`
regex engine is abstracted by the oracle `regexSearch pattern loweredText`;
every other rule (confidence threshold 0.4, >30% single-word repetition on
texts of more than 3 words, speaking rate above twice 2.5 words/sec, filler
phrases in more than half the word count) is embedded from the source. -/
def detectHallucinations (regexSearch : String → String → Bool)
    (text : String) (confidence : ℚ) (segment_duration : ℚ) :
    Bool × List HallucinationReason :=
  let patInds := (hallucinationPatterns.filter
      (fun p => regexSearch p (strLower text))).map .suspiciousPattern
  let isH := decide (patInds ≠ [])
  let (isH, inds) :=
    if confidence < 4/10 then (true, patInds ++ [.lowConfidence confidence])
    else (isH, patInds)
  let words := pyWords text
  let (isH, inds) :=
    if 3 < words.length ∧ (words.length : ℚ) * (3/10) < (maxRepetition words : ℚ) then
      (true, inds ++ [.excessiveRepetition])
    else (isH, inds)
  let expectedWords : ℚ := segment_duration * (5/2)
  let (isH, inds) :=
    if expectedWords * 2 < (words.length : ℚ) then (true, inds ++ [.unrealisticRate])
    else (isH, inds)
  let genericCount := (genericPhrases.filter
      (fun p => strContains (strLower text) p)).length
  let (isH, inds) :=
    if (words.length : ℚ) * (1/2) < (genericCount : ℚ) then
      (true, inds ++ [.excessiveFiller])
    else (isH, inds)
  (isH, inds)

/-- An input audio segment as consumed by `transcribe_audio_segments` (the
opaque waveform payload is only passed to the Whisper oracle and omitted). -/
structure AudioSegIn where
  start_time : ℚ
  end_time : ℚ
  duration : ℚ
  confidence : ℚ
deriving DecidableEq, Repr

/-- The part of a Whisper result that `transcribe_audio_segments` reads:
the text, the detected language, and per-sub-segment values of
`np.exp(seg['avg_logprob'])` (an entry is `none` when the sub-segment has no
`avg_logprob` key; the real exponential is computed by numpy, outside the
repository, so the already-exponentiated values are what the oracle
supplies). -/
structure WhisperOut where
  text : String
  language : String
  seg_exps : List (Option ℚ)
deriving DecidableEq, Repr

/-- The confidence computation of `transcribe_audio_segments` (lines 517-529):
mean of `min(exp(avg_logprob), 1)` over sub-segments carrying `avg_logprob`
when the result has sub-segments (0 when none of them carries one), else the
VAD confidence capped at 0.8. -/
def transcriptionConfidence (segConfidence : ℚ) (r : WhisperOut) : ℚ :=
  if r.seg_exps ≠ [] then
    let confs := (r.seg_exps.filterMap id).map (fun e => min e 1)
    if confs ≠ [] then confs.sum / (confs.length : ℚ) else 0
  else
    min segConfidence (8/10)

/-- A produced transcription finding (`TranscriptionSegment` dataclass; the
speaker/emotion fields stay `None` in this code path and are omitted). -/
structure TranscriptionFinding where
  start_time : ℚ
  end_time : ℚ
  text : String
  confidence : ℚ
  language : String
  is_hallucination : Bool
  hallucination_indicators : List HallucinationReason
deriving DecidableEq, Repr

/-- The body of the `transcribe_audio_segments` loop for one segment:
`none` models the `continue` paths (a transcription exception, or an empty
stripped text).  `whisper` abstracts the Whisper model call, returning `none`
when the call raises. -/
def transcribeOne (whisper : AudioSegIn → Option WhisperOut)
    (regexSearch : String → String → Bool) (segment : AudioSegIn) :
    Option TranscriptionFinding :=
  match whisper segment with
  | none => none
  | some r =>
    let text := strStrip r.text
    if text = "" then none
    else
      let confidence := transcriptionConfidence segment.confidence r
      let d1 := detectHallucinations regexSearch text confidence segment.duration
      let d2 :=
        if r.language ≠ "en" ∧ r.language ≠ "english" then
          (true, d1.2 ++ [.nonEnglish r.language])
        else d1
      let wps : ℚ := ((pyWords text).length : ℚ) / segment.duration
      let d3 := if 4 < wps then (true, d2.2 ++ [.unrealisticSpeechRate wps]) else d2
      some { start_time := segment.start_time
             end_time := segment.end_time
             text := text
             confidence := confidence
             language := r.language
             is_hallucination := d3.1
             hallucination_indicators := d3.2 }

/-- `transcribe_audio_segments(audio_segments, model_size)`: the per-segment
loop, appending one finding per segment unless a `continue` path is taken. -/
def transcribeAudioSegments (whisper : AudioSegIn → Option WhisperOut)
    (regexSearch : String → String → Bool) (audio_segments : List AudioSegIn) :
    List TranscriptionFinding :=
  audio_segments.filterMap (transcribeOne whisper regexSearch)

/-!
## Frame analyzer

`enhanced_video_analysis.py`: keyword scoring of the model response and the
hybrid provider fallback (`analyze_frame`), and the per-frame conversion of
the batch loop of `analyze_video_comprehensive_with_audio` (lines 255-287).
-/

/-- The `high_severity_indicators` list of `_assess_enhanced_severity`. -/
def highSeverityIndicators : List String :=
  ["excessive force", "weapon drawn", "violence", "injury",
   "constitutional violation", "serious concern", "immediate danger"]

/-- The `medium_severity_indicators` list of `_assess_enhanced_severity`. -/
def mediumSeverityIndicators : List String :=
  ["inappropriate", "concerning", "unprofessional", "escalation",
   "potential violation", "questionable"]

/-- `_assess_enhanced_severity(analysis_text)`. -/
def assessEnhancedSeverity (analysis_text : String) : String :=
  let t := strLower analysis_text
  if highSeverityIndicators.any (fun k => strContains t k) then "high"
  else if mediumSeverityIndicators.any (fun k => strContains t k) then "medium"
  else "low"

/-- The `violation_patterns` keyword table of `_extract_enhanced_violations`. -/
def violationPatterns : List (String × List String) :=
  [("excessive_force", ["excessive force", "unnecessary force", "brutal", "excessive"]),
   ("improper_procedure", ["improper procedure", "protocol violation", "incorrect"]),
   ("rights_violation", ["rights violation", "constitutional", "miranda"]),
   ("weapon_misuse", ["weapon misuse", "improper weapon", "unnecessary weapon"]),
   ("verbal_abuse", ["verbal abuse", "inappropriate language", "threatening"]),
   ("search_seizure", ["illegal search", "improper search", "seizure"]),
   ("discrimination", ["discrimination", "bias", "profiling"])]

/-- `violation_type.replace('_', ' ')`. -/
def underscoresToSpaces (s : String) : String :=
  String.mk (s.data.map (fun c => if c = '_' then ' ' else c))

/-- `_extract_enhanced_violations(analysis_text)`. -/
def extractEnhancedViolations (analysis_text : String) : List String :=
  let t := strLower analysis_text
  (violationPatterns.filter
    (fun vp => vp.2.any (fun k => strContains t k))).map
    (fun vp => underscoresToSpaces vp.1)

/-- The provider-call result dict that `analyze_frame` returns (the fields the
batch loop reads, plus the error marker). -/
structure ProviderResult where
  description : String
  confidence : ℚ
  provider : String
  model : String
  processing_time : ℚ
  estimated_cost : ℚ
  error : Option String
deriving DecidableEq, Repr

/-- The dict `analyze_frame` returns when every provider fails
(lines 1734-1743). -/
def allProvidersFailedResult : ProviderResult :=
  { description := "Analysis failed: All inference providers unavailable"
    confidence := 0
    provider := "none"
    model := "none"
    processing_time := 0
    estimated_cost := 0
    error := some "All providers failed" }

/-- `analyze_frame`: try the configured providers in priority order
(`attempts` lists the outcome `_analyze_frame_with_provider` would produce for
each provider, in order; `none` is a failed attempt) and return the first
success, or the explicit failure dict when all fail. -/
def analyzeFrame (attempts : List (Option ProviderResult)) : ProviderResult :=
  match attempts.findSome? id with
  | some r => r
  | none => allProvidersFailedResult

/-- The per-frame analysis dict assembled by the batch loop of
`analyze_video_comprehensive_with_audio` (lines 265-284), restricted to the
fields derived from the provider result. -/
structure FrameAnalysis where
  frame_number : ℕ
  timestamp : ℚ
  analysis_text : String
  confidence : ℚ
  concerns_detected : Bool
  potential_violations : List String
  severity_level : String
  provider : String
deriving DecidableEq, Repr

/-- One iteration of the batch loop: convert the `analyze_frame` result for
the frame at `frame_number`/`timestamp` into the analysis dict
(`concerns_detected` is the substring test of line 271). -/
def frameAnalysisOfResult (frame_number : ℕ) (timestamp : ℚ)
    (result : ProviderResult) : FrameAnalysis :=
  { frame_number := frame_number
    timestamp := timestamp
    analysis_text := result.description
    confidence := result.confidence
    concerns_detected :=
      strContains (strLower result.description) "concern" ||
      strContains (strLower result.description) "violation"
    potential_violations := extractEnhancedViolations result.description
    severity_level := assessEnhancedSeverity result.description
    provider := result.provider }

/-- The whole batch loop Step 6 (lines 255-287): every extracted frame is
processed, none is skipped, and a frame's provider attempts are supplied by
the oracle `attemptsFor`. -/
def analyzeBatch (attemptsFor : ℕ → List (Option ProviderResult))
    (frames : List (ℕ × ℚ)) : List FrameAnalysis :=
  frames.map (fun f => frameAnalysisOfResult f.1 f.2 (analyzeFrame (attemptsFor f.1)))

/-!
## Video structure analyzer

`enhanced_video_analysis.py`: `_detect_blackout_segments` and
`_create_useful_segments`.  A frame-content classification (`_is_frame_blackout`,
pure pixel arithmetic on an opaque image) and the success of `cap.read()` are
oracle parameters over the frame index.
-/

/-- A time segment (`start_time`/`end_time` dict entries of blackout and
useful segments; the stored `duration` entry is always `end - start` and is
modelled by `segDuration`). -/
structure Seg where
  start_time : ℚ
  end_time : ℚ
deriving DecidableEq, Repr

/-- The `duration` entry stored alongside a segment. -/
def segDuration (s : Seg) : ℚ := s.end_time - s.start_time

/-- The loop state of `_detect_blackout_segments`:
`in_blackout`, `blackout_start`, and the accumulated segments. -/
structure BlackoutState where
  inB : Bool
  startT : Option ℚ
  segs : List Seg
deriving DecidableEq, Repr

/-- One iteration of the `_detect_blackout_segments` scan for a sample with
timestamp `t` classified as blackout iff `b`. -/
def blackoutStep (st : BlackoutState) (tb : ℚ × Bool) : BlackoutState :=
  if tb.2 && !st.inB then ⟨true, some tb.1, st.segs⟩
  else if !tb.2 && st.inB then
    ⟨false, st.startT,
      match st.startT with
      | some s => st.segs ++ [⟨s, tb.1⟩]
      | none => st.segs⟩
  else st

/-- Close a trailing blackout at the video end (`_detect_blackout_segments`,
lines 433-443). -/
def blackoutFinish (endTime : ℚ) (st : BlackoutState) : List Seg :=
  if st.inB then
    match st.startT with
    | some s => st.segs ++ [⟨s, endTime⟩]
    | none => st.segs
  else st.segs

/-- The sampled frame indices of `_detect_blackout_segments`: `0, si, 2·si, …`
below `total_frames`, cut short at the first failed `cap.read()` (the `break`). -/
def sampleIndices (si total_frames : ℕ) (readOk : ℕ → Bool) : List ℕ :=
  ((List.range ((total_frames + si - 1) / si)).map (· * si)).takeWhile readOk

/-- `_detect_blackout_segments(cap, video_fps, total_frames)`.
`sample_interval = max(1, int(video_fps * 5))`; each surviving sample at frame
index `f` contributes the pair `(f / fps, is_blackout(frame_f))`. -/
def detectBlackoutSegments (fps : ℚ) (total_frames : ℕ)
    (readOk isBlackFrame : ℕ → Bool) : List Seg :=
  let si := max 1 (pyIntNat (fps * 5))
  let pairs := (sampleIndices si total_frames readOk).map
    (fun (f : ℕ) => ((f : ℚ) / fps, isBlackFrame f))
  blackoutFinish ((total_frames : ℚ) / fps)
    (pairs.foldl blackoutStep ⟨false, none, []⟩)

/-- Sort key of the blackout sort in `_create_useful_segments`. -/
def segLe (a b : Seg) : Prop := a.start_time ≤ b.start_time

instance : DecidableRel segLe :=
  fun a b => inferInstanceAs (Decidable (a.start_time ≤ b.start_time))

instance : IsTotal Seg segLe := ⟨fun a b => le_total a.start_time b.start_time⟩

instance : IsTrans Seg segLe := ⟨fun _ _ _ h h' => le_trans h h'⟩

/-- The gap walk of `_create_useful_segments` (lines 681-700): emit the gap
before each blackout when nonempty, advance `current_time` to the blackout
end, and close with the tail segment up to `duration` when nonempty. -/
def usefulGo (duration : ℚ) (cur : ℚ) : List Seg → List Seg
  | [] => if cur < duration then [⟨cur, duration⟩] else []
  | b :: rest =>
    (if cur < b.start_time then [⟨cur, b.start_time⟩] else []) ++
      usefulGo duration b.end_time rest

/-- `_create_useful_segments(video_info)`: the whole video when there is no
blackout, else the complement walk over the blackouts sorted by start time. -/
def createUsefulSegments (duration : ℚ) (blackouts : List Seg) : List Seg :=
  if blackouts = [] then [⟨0, duration⟩]
  else usefulGo duration 0 (List.insertionSort segLe blackouts)

/-!
## Frame sampler

`enhanced_video_analysis.py`: `_extract_uniform_from_segments`,
`_extract_frames_from_segment`, `_select_best_frames` and
`_extract_intelligent_adaptive`.
-/

/-- A sampled frame as produced by `_process_frame` (the dict fields used by
later steps: `frame_number` and `timestamp`; the base64 payload is opaque). -/
structure SFrame where
  frame_number : ℕ
  timestamp : ℚ
deriving DecidableEq, Repr

/-- Sort key of the timestamp sorts of the frame sampler. -/
def sframeLe (a b : SFrame) : Prop := a.timestamp ≤ b.timestamp

instance : DecidableRel sframeLe :=
  fun a b => inferInstanceAs (Decidable (a.timestamp ≤ b.timestamp))

instance : IsTotal SFrame sframeLe := ⟨fun a b => le_total a.timestamp b.timestamp⟩

instance : IsTrans SFrame sframeLe := ⟨fun _ _ _ h h' => le_trans h h'⟩

/-- The inner `while current_time < total_useful_duration` loop of
`_extract_uniform_from_segments` for one segment of the outer `for`:
at each step, when the cursor lies inside the current segment and the frame at
`int(current_time * fps)` reads back successfully, is not classified blackout
and survives `_process_frame` (all three folded into the `keep` oracle), the
frame is appended; then the cursor advances by `interval`, and the loop breaks
once `max_frames` frames are collected.  `fuel` bounds the iterations; every
theorem below holds for every fuel value, and the top-level entry supplies
enough fuel for the loop to run to its `current_time ≥ total` exit. -/
def uniformInner (fps : ℚ) (keep : ℕ → Bool) (seg : Seg) (total interval : ℚ)
    (maxF : ℕ) : ℕ → ℚ → List SFrame → ℚ × List SFrame
  | 0, cur, acc => (cur, acc)
  | fuel + 1, cur, acc =>
    if cur < total then
      let fnum := pyIntNat (cur * fps)
      let acc' :=
        if seg.start_time ≤ cur ∧ cur ≤ seg.end_time then
          (if keep fnum then acc ++ [⟨fnum, cur⟩] else acc)
        else acc
      if maxF ≤ acc'.length then (cur + interval, acc')
      else uniformInner fps keep seg total interval maxF fuel (cur + interval) acc'
    else (cur, acc)

/-- The outer `for segment in useful_segments` loop of
`_extract_uniform_from_segments` (the cursor persists across segments, and
the loop breaks once `max_frames` frames are collected). -/
def uniformOuter (fps : ℚ) (keep : ℕ → Bool) (total interval : ℚ)
    (maxF fuel : ℕ) : List Seg → ℚ → List SFrame → List SFrame
  | [], _, acc => acc
  | seg :: rest, cur, acc =>
    let r := uniformInner fps keep seg total interval maxF fuel cur acc
    if maxF ≤ r.2.length then r.2
    else uniformOuter fps keep total interval maxF fuel rest r.1 r.2

/-- `_extract_uniform_from_segments(cap, useful_segments, max_frames, video_fps)`. -/
def extractUniformFromSegments (fps : ℚ) (keep : ℕ → Bool)
    (useful : List Seg) (maxF : ℕ) : List SFrame :=
  let total := (useful.map segDuration).sum
  if total = 0 then []
  else
    let interval := total / (maxF : ℚ)
    (uniformOuter fps keep total interval maxF (maxF + 1) useful 0 []).take maxF

/-- Python `range(start, stop, step)` for a positive step, as a list. -/
def rangeStep (start stop step : ℕ) : List ℕ :=
  (List.range ((stop - start + step - 1) / step)).map (fun k => start + k * step)

/-- The motion-candidate collection of `_extract_frames_from_segment`
(lines 812-842): each surviving read produces a candidate whose motion score
is 0 for the first read and the inter-frame difference sum against the
previously read candidate otherwise (`mscore prev cur`, an oracle over the
opaque pixel data). -/
def motionCandidates (mscore : ℕ → ℕ → ℚ) : Option ℕ → List ℕ → List (ℕ × ℚ)
  | _, [] => []
  | prev, f :: rest =>
    (f, match prev with | none => 0 | some p => mscore p f) ::
      motionCandidates mscore (some f) rest

/-- Sort key for candidates by descending motion score (`reverse=True`). -/
def candScoreGe (a b : ℕ × ℚ) : Prop := b.2 ≤ a.2

instance : DecidableRel candScoreGe :=
  fun a b => inferInstanceAs (Decidable (b.2 ≤ a.2))

/-- Sort key for candidates by ascending timestamp (equivalently frame index). -/
def candTsLe (fps : ℚ) (a b : ℕ × ℚ) : Prop := (a.1 : ℚ) / fps ≤ (b.1 : ℚ) / fps

instance (fps : ℚ) : DecidableRel (candTsLe fps) :=
  fun a b => inferInstanceAs (Decidable ((a.1 : ℚ) / fps ≤ (b.1 : ℚ) / fps))

/-- `_extract_frames_from_segment(cap, segment, num_frames, video_fps)`:
over-sample the segment's frame range at interval
`max(1, segment_frames // (num_frames * 3))` (or 1 when the segment holds
fewer frames than requested), skip failed reads, score candidates by motion,
keep the `num_frames` highest-scoring candidates, re-sort them by timestamp
and keep those surviving `_process_frame` (the `keep` oracle). -/
def extractFramesFromSegment (fps : ℚ) (readOk keep : ℕ → Bool)
    (mscore : ℕ → ℕ → ℚ) (seg : Seg) (num_frames : ℕ) : List SFrame :=
  let start_frame := pyIntNat (seg.start_time * fps)
  let end_frame := pyIntNat (seg.end_time * fps)
  let segment_frames := end_frame - start_frame
  let interval :=
    if segment_frames < num_frames then 1
    else max 1 (segment_frames / (num_frames * 3))
  let idxs := (rangeStep start_frame end_frame interval).filter readOk
  let cands := motionCandidates mscore none idxs
  let selected :=
    ((List.insertionSort candScoreGe cands).take num_frames)
  let ordered := List.insertionSort (candTsLe fps) selected
  (ordered.filter (fun c => keep c.1)).map (fun c => ⟨c.1, (c.1 : ℚ) / fps⟩)

/-- `_select_best_frames(frames_data, target_count)`: score each frame by
`frame.get('motion_score', 0)` (always 0: `_process_frame` dicts carry no
motion score) plus a 0.1 temporal bonus for the first frame, sort by score
descending (stable), keep the top `target_count`, and re-sort by timestamp. -/
def selectBestFrames (frames : List SFrame) (target : ℕ) : List SFrame :=
  if frames.length ≤ target then frames
  else
    let scored := (List.range frames.length).zip frames |>.map
      (fun p => ((if p.1 = 0 then (1 : ℚ)/10 else 0), p.2))
    let sorted := List.insertionSort (fun a b : ℚ × SFrame => b.1 ≤ a.1) scored
    let chosen := (sorted.take target).map (·.2)
    List.insertionSort sframeLe chosen

instance : DecidableRel (fun a b : ℚ × SFrame => b.1 ≤ a.1) :=
  fun a b => inferInstanceAs (Decidable (b.1 ≤ a.1))

/-- The per-segment frame quota of `_extract_intelligent_adaptive`
(lines 734-744): the proportional share with minimum-frame floors and
long-segment bonuses. -/
def segmentQuota (maxF : ℕ) (total dur : ℚ) : ℕ :=
  let proportional := pyIntNat ((maxF : ℚ) * (dur / total))
  if 30 < dur then max proportional 3
  else if 10 < dur then max proportional 2
  else max proportional 1

/-- `_extract_intelligent_adaptive(cap, useful_segments, max_frames, video_fps)`:
skip segments shorter than 3s, extract each remaining segment's quota with
motion scoring, sort everything by timestamp, and trim with
`_select_best_frames` when over budget. -/
def extractIntelligentAdaptive (fps : ℚ) (readOk keep : ℕ → Bool)
    (mscore : ℕ → ℕ → ℚ) (useful : List Seg) (maxF : ℕ) : List SFrame :=
  let total := (useful.map segDuration).sum
  let collected := useful.foldl
    (fun acc seg =>
      if segDuration seg < 3 then acc
      else acc ++ extractFramesFromSegment fps readOk keep mscore seg
        (segmentQuota maxF total (segDuration seg))) []
  let sorted := List.insertionSort sframeLe collected
  if maxF < sorted.length then selectBestFrames sorted maxF else sorted

/-!
## Statement-level predicates and concrete scenario inputs
-/

/-- Two violations agreeing on every field except possibly confidence. -/
def sameExceptConfidence (v w : Violation) : Prop :=
  v.timestamp = w.timestamp ∧ v.vtype = w.vtype ∧ v.description = w.description ∧
  v.severity = w.severity ∧ v.source = w.source ∧ v.context = w.context

/-- The combined audio-context multiplier of `_calculate_violation_priority`
(the two sequential bonus branches). -/
def ctxFactor (audioCtx : Option AudioClosest) : ℚ :=
  match audioCtx with
  | none => 1
  | some closest =>
    (if 7/10 < closest.confidence ∧ |closest.time_offset| < 10 then (12:ℚ)/10 else 1) *
    (if priorityKeywords.any (fun k => strContains (strLower closest.text) k) then
      (11:ℚ)/10 else 1)

/-- Well-formedness of a detected blackout list for a video of duration `d` at
`fps` frames per second: every segment is nonempty, lies in `[0, d]`, has
frame-aligned endpoints, and the segments are strictly separated in order. -/
def BlackoutsWF (d fps : ℚ) (bl : List Seg) : Prop :=
  (∀ b ∈ bl, 0 ≤ b.start_time ∧ b.start_time < b.end_time ∧ b.end_time ≤ d ∧
    (∃ n : ℕ, b.start_time = (n : ℚ) / fps) ∧ (∃ m : ℕ, b.end_time = (m : ℚ) / fps)) ∧
  List.Pairwise (fun a b => a.end_time < b.start_time) bl

/-- The sampler output contract stated by the spec: at most `N` frames, sorted
by non-decreasing timestamp, every timestamp inside some usable segment and
strictly inside no blackout segment. -/
def SamplerOutputOK (bl useful : List Seg) (out : List SFrame) (N : ℕ) : Prop :=
  out.length ≤ N ∧
  List.Pairwise (fun a b : SFrame => a.timestamp ≤ b.timestamp) out ∧
  ∀ fr ∈ out,
    (∃ u ∈ useful, u.start_time ≤ fr.timestamp ∧ fr.timestamp ≤ u.end_time) ∧
    ∀ b ∈ bl, ¬(b.start_time < fr.timestamp ∧ fr.timestamp < b.end_time)

/-- Blackout classifier of the 60s scenario video: frames from second 20 up to
second 30 are blacked out (at 1 fps, the frame index is the second). -/
def scenarioIsBlack (f : ℕ) : Bool := decide (20 ≤ f) && decide (f < 30)

/-- Blackout segments the structure analyzer detects on the scenario video. -/
def scenarioBlackouts : List Seg :=
  detectBlackoutSegments 1 60 (fun _ => true) scenarioIsBlack

/-- Usable segments derived for the scenario video. -/
def scenarioUseful : List Seg := createUsefulSegments 60 scenarioBlackouts

/-- Uniform-strategy sampler output on the scenario video with budget 6. -/
def scenarioUniform : List SFrame :=
  extractUniformFromSegments 1 (fun _ => true) scenarioUseful 6

/-- First violation of the deduplication scenario: `excessive_force` at 10.0s
with confidence 0.6, video-sourced. -/
def exampleEF1 : Violation :=
  { timestamp := 10
    vtype := "excessive_force"
    description := "Visually detected concern: excessive_force"
    severity := "high"
    confidence := 6/10
    source := "video"
    context := "frame 300" }

/-- Second violation of the deduplication scenario: `excessive_force` at 12.0s
with confidence 0.8, video-sourced. -/
def exampleEF2 : Violation :=
  { timestamp := 12
    vtype := "excessive_force"
    description := "Visually detected concern: excessive_force"
    severity := "high"
    confidence := 8/10
    source := "video"
    context := "frame 360" }

/-- The transcription text of the excessive-repetition scenario. -/
def repetitionScenarioText : String :=
  "stop resisting stop resisting stop resisting stop"

/-- An audio segment whose Whisper transcription comes back empty, witnessing
that the transcription loop is not 1:1. -/
def emptyTextSegment : AudioSegIn :=
  { start_time := 0, end_time := 2, duration := 2, confidence := 1/2 }

/-- A Whisper oracle returning an empty English transcription. -/
def emptyWhisper : AudioSegIn → Option WhisperOut :=
  fun _ => some { text := "", language := "en", seg_exps := [] }

/-- A regex oracle on which no pattern ever matches. -/
def noRegexMatch : String → String → Bool := fun _ _ => false

/-!
## Theorems

Helper lemmas first, then one theorem per claim (with witnesses and
counterexamples where required).
-/

theorem severityMultiplier_nonneg (s : String) : 0 ≤ severityMultiplier s := by
  unfold severityMultiplier
  split_ifs <;> norm_num

theorem ctxFactor_nonneg (ctx : Option AudioClosest) : 0 ≤ ctxFactor ctx := by
  rcases ctx with _ | c
  · norm_num [ctxFactor]
  · dsimp only [ctxFactor]
    split_ifs <;> norm_num

theorem calculateViolationPriority_eq (c : ℚ) (s : String) (ctx : Option AudioClosest) :
    calculateViolationPriority c s ctx = min (c * severityMultiplier s * ctxFactor ctx) 1 := by
  rcases ctx with _ | cl
  · simp [calculateViolationPriority, ctxFactor]
  · dsimp only [calculateViolationPriority, ctxFactor]
    split_ifs <;> ring_nf

/-- C8.  The violation priority score `_calculate_violation_priority` is
monotonically non-decreasing in confidence (any fixed severity and audio
context), monotonically non-decreasing in severity rank over
low < medium < high < critical (any fixed nonnegative confidence and audio
context), and never exceeds 1. -/
theorem priority_score_monotone_and_bounded :
    (∀ (c₁ c₂ : ℚ) (s : String) (ctx : Option AudioClosest), c₁ ≤ c₂ →
      calculateViolationPriority c₁ s ctx ≤ calculateViolationPriority c₂ s ctx) ∧
    (∀ (c : ℚ) (s₁ s₂ : String) (ctx : Option AudioClosest), 0 ≤ c →
      s₁ ∈ severityLevels → s₂ ∈ severityLevels → sevRank s₁ ≤ sevRank s₂ →
      calculateViolationPriority c s₁ ctx ≤ calculateViolationPriority c s₂ ctx) ∧
    (∀ (c : ℚ) (s : String) (ctx : Option AudioClosest),
      calculateViolationPriority c s ctx ≤ 1) := by
  refine ⟨?_, ?_, ?_⟩
  · intro c₁ c₂ s ctx h
    rw [calculateViolationPriority_eq, calculateViolationPriority_eq]
    refine min_le_min ?_ le_rfl
    have h1 : c₁ * severityMultiplier s ≤ c₂ * severityMultiplier s :=
      mul_le_mul_of_nonneg_right h (severityMultiplier_nonneg s)
    exact mul_le_mul_of_nonneg_right h1 (ctxFactor_nonneg ctx)
  · intro c s₁ s₂ ctx hc hs₁ hs₂ hrank
    rw [calculateViolationPriority_eq, calculateViolationPriority_eq]
    refine min_le_min ?_ le_rfl
    have hmul : severityMultiplier s₁ ≤ severityMultiplier s₂ := by
      have m1 : severityMultiplier "low" = 7/10 := rfl
      have m2 : severityMultiplier "medium" = 1 := rfl
      have m3 : severityMultiplier "high" = 13/10 := rfl
      have m4 : severityMultiplier "critical" = 3/2 := rfl
      simp only [severityLevels, List.mem_cons, List.not_mem_nil, or_false] at hs₁ hs₂
      rcases hs₁ with rfl | rfl | rfl | rfl <;> rcases hs₂ with rfl | rfl | rfl | rfl <;>
        first
          | exact absurd hrank (by decide)
          | (simp only [m1, m2, m3, m4]; norm_num)
    have h1 : c * severityMultiplier s₁ ≤ c * severityMultiplier s₂ :=
      mul_le_mul_of_nonneg_left hmul hc
    exact mul_le_mul_of_nonneg_right h1 (ctxFactor_nonneg ctx)
  · intro c s ctx
    rw [calculateViolationPriority_eq]
    exact min_le_right _ _

/-- Witness for C8 at concrete inputs. -/
theorem priority_score_witness :
    ((1:ℚ)/2 ≤ 3/4 ∧
      calculateViolationPriority (1/2) "low" none ≤
        calculateViolationPriority (3/4) "low" none) ∧
    ((0:ℚ) ≤ 1/2 ∧ "low" ∈ severityLevels ∧ "critical" ∈ severityLevels ∧
      sevRank "low" ≤ sevRank "critical" ∧
      calculateViolationPriority (1/2) "low" none ≤
        calculateViolationPriority (1/2) "critical" none) ∧
    calculateViolationPriority (9/10) "critical" none ≤ 1 :=
  ⟨⟨by norm_num,
    priority_score_monotone_and_bounded.1 (1/2) (3/4) "low" none (by norm_num)⟩,
   ⟨by norm_num, by simp [severityLevels], by simp [severityLevels],
    by norm_num [sevRank],
    priority_score_monotone_and_bounded.2.1 (1/2) "low" "critical" none (by norm_num)
      (by simp [severityLevels]) (by simp [severityLevels]) (by norm_num [sevRank])⟩,
   priority_score_monotone_and_bounded.2.2 (9/10) "critical" none⟩

/-- C4.  Whenever a transcription text has at least 4 words and some single
word's repetition count exceeds 30% of the word count, `detect_hallucinations`
flags the text as a hallucination and appends the excessive-repetition reason,
whatever the regex oracle, the confidence and the duration do. -/
theorem hallucination_excessive_repetition_rule (rs : String → String → Bool)
    (text : String) (confidence duration : ℚ)
    (hwords : 3 < (pyWords text).length)
    (hrep : ((pyWords text).length : ℚ) * (3/10) < (maxRepetition (pyWords text) : ℚ)) :
    (detectHallucinations rs text confidence duration).1 = true ∧
    HallucinationReason.excessiveRepetition ∈
      (detectHallucinations rs text confidence duration).2 := by
  simp only [detectHallucinations]
  split_ifs with h1 h2 h3 h4 <;> simp_all

/-- Witness for C4: the scenario text
"stop resisting stop resisting stop resisting stop" (7 words, "stop"
appearing 4 times) at confidence 0.6 and duration 3s. -/
theorem hallucination_excessive_repetition_witness :
    (3 < (pyWords repetitionScenarioText).length ∧
      ((pyWords repetitionScenarioText).length : ℚ) * (3/10) <
        (maxRepetition (pyWords repetitionScenarioText) : ℚ)) ∧
    ((detectHallucinations noRegexMatch repetitionScenarioText (6/10) 3).1 = true ∧
      HallucinationReason.excessiveRepetition ∈
        (detectHallucinations noRegexMatch repetitionScenarioText (6/10) 3).2) := by
  have hlen : (pyWords repetitionScenarioText).length = 7 := by decide
  have hmax : maxRepetition (pyWords repetitionScenarioText) = 4 := by decide
  have h1 : 3 < (pyWords repetitionScenarioText).length := by rw [hlen]; norm_num
  have h2 : ((pyWords repetitionScenarioText).length : ℚ) * (3/10) <
      (maxRepetition (pyWords repetitionScenarioText) : ℚ) := by
    rw [hlen, hmax]; norm_num
  exact ⟨⟨h1, h2⟩,
    hallucination_excessive_repetition_rule noRegexMatch repetitionScenarioText
      (6/10) 3 h1 h2⟩

theorem findSome_id_of_all_none {α : Type} :
    ∀ l : List (Option α), (∀ a ∈ l, a = none) → l.findSome? id = none := by
  intro l h
  induction l with
  | nil => rfl
  | cons a t ih =>
    have ha : a = none := h a (List.mem_cons_self a t)
    subst ha
    simpa using ih (fun b hb => h b (List.mem_cons_of_mem _ hb))

theorem analyzeFrame_all_fail (attempts : List (Option ProviderResult))
    (h : ∀ a ∈ attempts, a = none) :
    analyzeFrame attempts = allProvidersFailedResult := by
  unfold analyzeFrame
  rw [findSome_id_of_all_none attempts h]

/-- Counterexample for C6: when both configured providers fail, the severity
recorded by the batch loop is `"low"` (the keyword assessment of the failure
text), not the `"unknown"` the spec states. -/
theorem frame_failure_severity_counterexample :
    (frameAnalysisOfResult 0 0 (analyzeFrame [none, none])).severity_level = "low" ∧
    (frameAnalysisOfResult 0 0 (analyzeFrame [none, none])).severity_level ≠ "unknown" := by
  constructor <;> decide

/-- C6 (amended).  When every provider attempt for every frame fails, the
batch loop of `analyze_video_comprehensive_with_audio` still produces one
analysis per frame (it never aborts), and each produced analysis is the
degraded finding: confidence 0.0, severity `"low"`, no concerns, the explicit
failure text as its analysis text, and provider `"none"`. -/
theorem frame_failure_degraded_finding
    (attemptsFor : ℕ → List (Option ProviderResult)) (frames : List (ℕ × ℚ))
    (hfail : ∀ n, ∀ a ∈ attemptsFor n, a = none) :
    (analyzeBatch attemptsFor frames).length = frames.length ∧
    ∀ fa ∈ analyzeBatch attemptsFor frames,
      fa.confidence = 0 ∧ fa.severity_level = "low" ∧
      fa.concerns_detected = false ∧
      fa.analysis_text = "Analysis failed: All inference providers unavailable" ∧
      fa.provider = "none" := by
  constructor
  · simp [analyzeBatch]
  · intro fa hfa
    simp only [analyzeBatch, List.mem_map] at hfa
    obtain ⟨p, _, rfl⟩ := hfa
    rw [analyzeFrame_all_fail _ (hfail p.1)]
    refine ⟨rfl, ?_, ?_, rfl, rfl⟩
    · exact (by decide :
        assessEnhancedSeverity allProvidersFailedResult.description = "low")
    · exact (by decide :
        (strContains (strLower allProvidersFailedResult.description) "concern" ||
          strContains (strLower allProvidersFailedResult.description) "violation") = false)

/-- Witness for C6 at a concrete batch of one frame and two failing providers. -/
theorem frame_failure_degraded_witness :
    (∀ n : ℕ, ∀ a ∈ (fun _ : ℕ => ([none, none] : List (Option ProviderResult))) n,
      a = none) ∧
    ((analyzeBatch (fun _ => [none, none]) [((0 : ℕ), (0 : ℚ))]).length =
        [((0 : ℕ), (0 : ℚ))].length ∧
      ∀ fa ∈ analyzeBatch (fun _ => [none, none]) [((0 : ℕ), (0 : ℚ))],
        fa.confidence = 0 ∧ fa.severity_level = "low" ∧
        fa.concerns_detected = false ∧
        fa.analysis_text = "Analysis failed: All inference providers unavailable" ∧
        fa.provider = "none") :=
  ⟨fun _ a ha => by simpa using ha,
   frame_failure_degraded_finding (fun _ => [none, none]) [((0 : ℕ), (0 : ℚ))]
     (fun _ a ha => by simpa using ha)⟩

/-- Counterexample for C9: a segment whose Whisper call returns an empty
transcription yields no finding at all — the loop `continue`s — so the
output is not 1:1 with the input segment list. -/
theorem transcription_not_one_to_one :
    transcribeAudioSegments emptyWhisper noRegexMatch [emptyTextSegment] = [] ∧
    [emptyTextSegment].length = 1 := by
  constructor <;> rfl

theorem length_filterMap_eq_countP {α β : Type} (g : α → Option β) (l : List α) :
    (l.filterMap g).length = (l.filter (fun a => (g a).isSome)).length := by
  induction l with
  | nil => rfl
  | cons a t ih => cases hg : g a <;> simp [List.filterMap_cons, hg, ih]

/-- C9 (amended).  The transcription loop produces exactly one finding per
input segment whose Whisper call succeeds with nonempty stripped text (and
none for the other segments); and every produced finding — in particular
every finding flagged as a hallucination, with its reason list — is retained
in the output, never discarded. -/
theorem transcription_per_segment_retention
    (w : AudioSegIn → Option WhisperOut) (rs : String → String → Bool)
    (segs : List AudioSegIn) :
    (transcribeAudioSegments w rs segs).length =
      (segs.filter (fun s => (transcribeOne w rs s).isSome)).length ∧
    (∀ s : AudioSegIn, (transcribeOne w rs s).isSome ↔
      ∃ r, w s = some r ∧ strStrip r.text ≠ "") ∧
    ∀ s ∈ segs, ∀ f, transcribeOne w rs s = some f →
      f ∈ transcribeAudioSegments w rs segs := by
  refine ⟨length_filterMap_eq_countP _ _, ?_, ?_⟩
  · intro s
    cases hw : w s with
    | none => simp [transcribeOne, hw]
    | some r =>
      by_cases ht : strStrip r.text = ""
      · simp [transcribeOne, hw, ht]
      · simp only [transcribeOne, hw, if_neg ht]
        simp [ht]
  · intro s hs f hf
    exact List.mem_filterMap.mpr ⟨s, hs, hf⟩

/-- Witness for C9 at one concrete segment whose transcription succeeds. -/
theorem transcription_retention_witness :
    (transcribeOne (fun _ => some ⟨"hello", "en", []⟩) noRegexMatch emptyTextSegment =
      some ⟨0, 2, "hello", 1/2, "en", false, []⟩) ∧
    (⟨0, 2, "hello", 1/2, "en", false, []⟩ : TranscriptionFinding) ∈
      transcribeAudioSegments (fun _ => some ⟨"hello", "en", []⟩) noRegexMatch
        [emptyTextSegment] := by
  have hconf : transcriptionConfidence ((1:ℚ)/2) ⟨"hello", "en", []⟩ = 1/2 := by
    norm_num [transcriptionConfidence, min_def]
  have hlen : (pyWords "hello").length = 1 := by decide
  have hmax : maxRepetition (pyWords "hello") = 1 := by decide
  have hgen : (genericPhrases.filter
      (fun p => strContains (strLower "hello") p)).length = 0 := by decide
  have hpats : hallucinationPatterns.filter
      (fun p => noRegexMatch p (strLower "hello")) = [] := by
    simp [noRegexMatch]
  have hdet : detectHallucinations noRegexMatch "hello" (1/2) 2 = (false, []) := by
    simp only [detectHallucinations, hpats, hlen, hmax, hgen]
    norm_num
  have hstrip : strStrip "hello" = "hello" := by decide
  have h : transcribeOne (fun _ => some ⟨"hello", "en", []⟩) noRegexMatch
      emptyTextSegment = some ⟨0, 2, "hello", 1/2, "en", false, []⟩ := by
    simp only [transcribeOne, emptyTextSegment, hstrip, hconf, hdet]
    norm_num [hlen]
    intro hfalse
    exact absurd hfalse (by decide)
  exact ⟨h, (transcription_per_segment_retention
    (fun _ => some ⟨"hello", "en", []⟩) noRegexMatch [emptyTextSegment]).2.2
    emptyTextSegment (by simp) _ h⟩

theorem sameExceptConfidence_refl (v : Violation) : sameExceptConfidence v v :=
  ⟨rfl, rfl, rfl, rfl, rfl, rfl⟩

theorem sameExceptConfidence_update (v : Violation) (c : ℚ) :
    sameExceptConfidence v { v with confidence := c } :=
  ⟨rfl, rfl, rfl, rfl, rfl, rfl⟩

theorem sameExceptConfidence_trans {u v w : Violation}
    (h1 : sameExceptConfidence u v) (h2 : sameExceptConfidence v w) :
    sameExceptConfidence u w :=
  ⟨h1.1.trans h2.1, h1.2.1.trans h2.2.1, h1.2.2.1.trans h2.2.2.1,
   h1.2.2.2.1.trans h2.2.2.2.1, h1.2.2.2.2.1.trans h2.2.2.2.2.1,
   h1.2.2.2.2.2.trans h2.2.2.2.2.2⟩

theorem confidence_bump_eq_max (v w : Violation) :
    (if v.confidence < w.confidence then w.confidence else v.confidence) =
      max v.confidence w.confidence := by
  rcases le_or_lt w.confidence v.confidence with h | h
  · rw [if_neg (not_lt.mpr h), max_eq_left h]
  · rw [if_pos h, max_eq_right h.le]

theorem dedupScan_head_struct :
    ∀ (l : List Violation) (prev : Violation),
      ∃ c tail, dedupScan prev l = { prev with confidence := c } :: tail ∧
        prev.confidence ≤ c := by
  intro l
  induction l with
  | nil => exact fun prev => ⟨prev.confidence, [], rfl, le_rfl⟩
  | cons cur rest ih =>
    intro prev
    by_cases h : cur.vtype = prev.vtype ∧ |cur.timestamp - prev.timestamp| < 5
    · simp only [dedupScan, if_pos h]
      by_cases hc : prev.confidence < cur.confidence
      · rw [if_pos hc]
        obtain ⟨c, tail, heq, hle⟩ := ih { prev with confidence := cur.confidence }
        exact ⟨c, tail, heq, le_trans hc.le hle⟩
      · rw [if_neg hc]
        exact ih prev
    · simp only [dedupScan, if_neg h]
      exact ⟨prev.confidence, dedupScan cur rest, rfl, le_rfl⟩

theorem dedupScan_mem_fields :
    ∀ (l : List Violation) (prev : Violation), ∀ w ∈ dedupScan prev l,
      ∃ v ∈ prev :: l, sameExceptConfidence v w ∧ v.confidence ≤ w.confidence ∧
        ∃ u ∈ prev :: l, w.confidence = u.confidence := by
  intro l
  induction l with
  | nil =>
    intro prev w hw
    simp only [dedupScan, List.mem_singleton] at hw
    subst hw
    exact ⟨w, List.mem_singleton_self w, sameExceptConfidence_refl w, le_rfl,
      w, List.mem_singleton_self w, rfl⟩
  | cons cur rest ih =>
    intro prev w hw
    by_cases h : cur.vtype = prev.vtype ∧ |cur.timestamp - prev.timestamp| < 5
    · simp only [dedupScan, if_pos h] at hw
      by_cases hc : prev.confidence < cur.confidence
      · rw [if_pos hc] at hw
        obtain ⟨v, hv, hsame, hle, u, hu, hcu⟩ :=
          ih { prev with confidence := cur.confidence } w hw
        rcases List.mem_cons.mp hv with rfl | hv'
        · refine ⟨prev, List.mem_cons_self _ _,
            sameExceptConfidence_trans (sameExceptConfidence_update prev _) hsame,
            le_trans hc.le hle, ?_⟩
          rcases List.mem_cons.mp hu with rfl | hu'
          · exact ⟨cur, List.mem_cons_of_mem _ (List.mem_cons_self _ _), hcu⟩
          · exact ⟨u, List.mem_cons_of_mem _ (List.mem_cons_of_mem _ hu'), hcu⟩
        · refine ⟨v, List.mem_cons_of_mem _ (List.mem_cons_of_mem _ hv'),
            hsame, hle, ?_⟩
          rcases List.mem_cons.mp hu with rfl | hu'
          · exact ⟨cur, List.mem_cons_of_mem _ (List.mem_cons_self _ _), hcu⟩
          · exact ⟨u, List.mem_cons_of_mem _ (List.mem_cons_of_mem _ hu'), hcu⟩
      · rw [if_neg hc] at hw
        obtain ⟨v, hv, hsame, hle, u, hu, hcu⟩ := ih prev w hw
        rcases List.mem_cons.mp hv with rfl | hv'
        · refine ⟨v, List.mem_cons_self _ _, hsame, hle, ?_⟩
          rcases List.mem_cons.mp hu with rfl | hu'
          · exact ⟨u, List.mem_cons_self _ _, hcu⟩
          · exact ⟨u, List.mem_cons_of_mem _ (List.mem_cons_of_mem _ hu'), hcu⟩
        · refine ⟨v, List.mem_cons_of_mem _ (List.mem_cons_of_mem _ hv'),
            hsame, hle, ?_⟩
          rcases List.mem_cons.mp hu with rfl | hu'
          · exact ⟨u, List.mem_cons_self _ _, hcu⟩
          · exact ⟨u, List.mem_cons_of_mem _ (List.mem_cons_of_mem _ hu'), hcu⟩
    · simp only [dedupScan, if_neg h, List.mem_cons] at hw
      rcases hw with rfl | hw'
      · exact ⟨w, List.mem_cons_self _ _, sameExceptConfidence_refl w, le_rfl,
          w, List.mem_cons_self _ _, rfl⟩
      · obtain ⟨v, hv, hsame, hle, u, hu, hcu⟩ := ih cur w hw'
        exact ⟨v, List.mem_cons_of_mem _ hv, hsame, hle,
          u, List.mem_cons_of_mem _ hu, hcu⟩

theorem dedupScan_head_repr (l : List Violation) (prev : Violation) :
    ∃ w ∈ dedupScan prev l, w.timestamp = prev.timestamp ∧
      w.vtype = prev.vtype ∧ prev.confidence ≤ w.confidence := by
  obtain ⟨c, tail, heq, hle⟩ := dedupScan_head_struct l prev
  exact ⟨{ prev with confidence := c }, heq ▸ List.mem_cons_self _ _, rfl, rfl, hle⟩

theorem dedupScan_repr :
    ∀ (l : List Violation) (prev : Violation), ∀ v ∈ prev :: l,
      ∃ w ∈ dedupScan prev l, w.vtype = v.vtype ∧
        |v.timestamp - w.timestamp| < 5 ∧ v.confidence ≤ w.confidence := by
  intro l
  induction l with
  | nil =>
    intro prev v hv
    simp only [List.mem_singleton] at hv
    subst hv
    exact ⟨v, by simp [dedupScan], rfl, by norm_num, le_rfl⟩
  | cons cur rest ih =>
    intro prev v hv
    by_cases h : cur.vtype = prev.vtype ∧ |cur.timestamp - prev.timestamp| < 5
    · simp only [dedupScan, if_pos h]
      have hbump : prev.confidence ≤
          (if prev.confidence < cur.confidence then
            { prev with confidence := cur.confidence } else prev).confidence ∧
          cur.confidence ≤
          (if prev.confidence < cur.confidence then
            { prev with confidence := cur.confidence } else prev).confidence := by
        by_cases hc : prev.confidence < cur.confidence
        · rw [if_pos hc]; exact ⟨hc.le, le_rfl⟩
        · rw [if_neg hc]; exact ⟨le_rfl, not_lt.mp hc⟩
      set bump := if prev.confidence < cur.confidence then
        { prev with confidence := cur.confidence } else prev with hbdef
      have hbts : bump.timestamp = prev.timestamp := by
        rw [hbdef]; split_ifs <;> rfl
      have hbty : bump.vtype = prev.vtype := by
        rw [hbdef]; split_ifs <;> rfl
      obtain ⟨w, hw, hwts, hwty, hwc⟩ := dedupScan_head_repr rest bump
      rcases List.mem_cons.mp hv with rfl | hv'
      · exact ⟨w, hw, hwty.trans hbty, by rw [hwts, hbts]; norm_num,
          le_trans hbump.1 hwc⟩
      · rcases List.mem_cons.mp hv' with rfl | hv''
        · refine ⟨w, hw, hwty.trans (hbty.trans h.1.symm), ?_,
            le_trans hbump.2 hwc⟩
          rw [hwts, hbts]
          exact h.2
        · exact ih bump v (List.mem_cons_of_mem _ hv'')
    · simp only [dedupScan, if_neg h]
      rcases List.mem_cons.mp hv with rfl | hv'
      · obtain ⟨c, tail, heq, _⟩ := dedupScan_head_struct rest cur
        exact ⟨v, List.mem_cons_self _ _, rfl, by norm_num, le_rfl⟩
      · obtain ⟨w, hw, hwty, hwts, hwc⟩ := ih cur v hv'
        exact ⟨w, List.mem_cons_of_mem _ hw, hwty, hwts, hwc⟩

theorem dedupScan_sorted_ts :
    ∀ (l : List Violation) (prev : Violation),
      List.Sorted violationLe (prev :: l) →
      List.Sorted violationLe (dedupScan prev l) ∧
        ∀ w ∈ dedupScan prev l, prev.timestamp ≤ w.timestamp := by
  intro l
  induction l with
  | nil =>
    intro prev _
    refine ⟨List.sorted_singleton prev, ?_⟩
    intro w hw
    simp only [dedupScan, List.mem_singleton] at hw
    subst hw
    exact le_rfl
  | cons cur rest ih =>
    intro prev hsorted
    rw [List.sorted_cons] at hsorted
    obtain ⟨hprevall, hrest⟩ := hsorted
    by_cases h : cur.vtype = prev.vtype ∧ |cur.timestamp - prev.timestamp| < 5
    · simp only [dedupScan, if_pos h]
      set bump := if prev.confidence < cur.confidence then
        { prev with confidence := cur.confidence } else prev with hbdef
      have hbts : bump.timestamp = prev.timestamp := by
        rw [hbdef]; split_ifs <;> rfl
      have hbsorted : List.Sorted violationLe (bump :: rest) := by
        rw [List.sorted_cons]
        refine ⟨?_, (List.sorted_cons.mp hrest).2⟩
        intro b hb
        have : violationLe cur b := (List.sorted_cons.mp hrest).1 b hb
        have hpc : violationLe prev cur := hprevall cur (List.mem_cons_self _ _)
        unfold violationLe at *
        rw [hbts]
        exact le_trans hpc this
      obtain ⟨hs, hb⟩ := ih bump hbsorted
      refine ⟨hs, fun w hw => ?_⟩
      have := hb w hw
      rwa [hbts] at this
    · simp only [dedupScan, if_neg h]
      obtain ⟨hs, hb⟩ := ih cur hrest
      refine ⟨?_, ?_⟩
      · rw [List.sorted_cons]
        refine ⟨fun b hb' => ?_, hs⟩
        have h1 : violationLe prev cur := hprevall cur (List.mem_cons_self _ _)
        have h2 := hb b hb'
        unfold violationLe at *
        exact le_trans h1 h2
      · intro w hw
        rcases List.mem_cons.mp hw with rfl | hw'
        · exact le_rfl
        · exact le_trans (hprevall cur (List.mem_cons_self _ _)) (hb w hw')

theorem dedupScan_separated :
    ∀ (l : List Violation) (prev : Violation),
      List.Chain'
        (fun a b => ¬(b.vtype = a.vtype ∧ |b.timestamp - a.timestamp| < 5))
        (dedupScan prev l) := by
  intro l
  induction l with
  | nil => intro prev; simp [dedupScan]
  | cons cur rest ih =>
    intro prev
    by_cases h : cur.vtype = prev.vtype ∧ |cur.timestamp - prev.timestamp| < 5
    · simp only [dedupScan, if_pos h]
      exact ih _
    · simp only [dedupScan, if_neg h]
      rw [List.chain'_cons']
      refine ⟨?_, ih cur⟩
      intro hd hhd
      obtain ⟨c, tail, heq, _⟩ := dedupScan_head_struct rest cur
      rw [heq] at hhd
      simp only [List.head?_cons, Option.mem_def, Option.some.injEq] at hhd
      subst hhd
      exact h

theorem dedupScan_of_separated :
    ∀ (l : List Violation) (prev : Violation),
      List.Chain'
        (fun a b => ¬(b.vtype = a.vtype ∧ |b.timestamp - a.timestamp| < 5))
        (prev :: l) →
      dedupScan prev l = prev :: l := by
  intro l
  induction l with
  | nil => intro prev _; rfl
  | cons cur rest ih =>
    intro prev hchain
    rw [List.chain'_cons] at hchain
    simp only [dedupScan, if_neg hchain.1]
    rw [ih cur hchain.2]

theorem dedup_pair_eq (v w : Violation) (h : violationLe v w) :
    combineAndDeduplicate [v] [w] =
      if w.vtype = v.vtype ∧ |w.timestamp - v.timestamp| < 5 then
        [{ v with confidence := max v.confidence w.confidence }]
      else [v, w] := by
  have hsort : sortByTimestamp ([v] ++ [w]) = [v, w] := by
    simp only [sortByTimestamp, List.insertionSort, List.orderedInsert,
      List.cons_append, List.nil_append]
    rw [if_pos h]
  simp only [combineAndDeduplicate, hsort]
  by_cases hc : w.vtype = v.vtype ∧ |w.timestamp - v.timestamp| < 5
  · rw [if_pos hc]
    simp only [dedupScan, if_pos hc]
    have hbump : (if v.confidence < w.confidence then
        ({ v with confidence := w.confidence } : Violation) else v) =
        { v with confidence := max v.confidence w.confidence } := by
      rcases le_or_lt w.confidence v.confidence with h' | h'
      · rw [if_neg (not_lt.mpr h'), max_eq_left h']
      · rw [if_pos h', max_eq_right h'.le]
    rw [hbump]
  · rw [if_neg hc]
    simp only [dedupScan, if_neg hc]

theorem dedup_representation (fV aV : List Violation) :
    ∀ x ∈ fV ++ aV, ∃ y ∈ combineAndDeduplicate fV aV,
      y.vtype = x.vtype ∧ |x.timestamp - y.timestamp| < 5 ∧
      x.confidence ≤ y.confidence := by
  intro x hx
  have hx' : x ∈ sortByTimestamp (fV ++ aV) :=
    (List.perm_insertionSort violationLe (fV ++ aV)).mem_iff.mpr hx
  rcases hs : sortByTimestamp (fV ++ aV) with _ | ⟨v, rest⟩
  · rw [hs] at hx'
    exact absurd hx' (List.not_mem_nil x)
  · rw [hs] at hx'
    have hout : combineAndDeduplicate fV aV = dedupScan v rest := by
      simp only [combineAndDeduplicate, hs]
    rw [hout]
    exact dedupScan_repr rest v x hx'

theorem dedup_mem_fields (fV aV : List Violation) :
    ∀ y ∈ combineAndDeduplicate fV aV,
      ∃ v ∈ fV ++ aV, sameExceptConfidence v y ∧ v.confidence ≤ y.confidence ∧
        ∃ u ∈ fV ++ aV, y.confidence = u.confidence := by
  intro y hy
  rcases hs : sortByTimestamp (fV ++ aV) with _ | ⟨v, rest⟩
  · have hout : combineAndDeduplicate fV aV = [] := by
      simp only [combineAndDeduplicate, hs]
    rw [hout] at hy
    exact absurd hy (List.not_mem_nil y)
  · have hout : combineAndDeduplicate fV aV = dedupScan v rest := by
      simp only [combineAndDeduplicate, hs]
    rw [hout] at hy
    obtain ⟨v', hv', hsame, hle, u, hu, hcu⟩ := dedupScan_mem_fields rest v y hy
    have hmem : ∀ z : Violation, z ∈ v :: rest → z ∈ fV ++ aV := by
      intro z hz
      rw [← hs] at hz
      exact (List.perm_insertionSort violationLe (fV ++ aV)).mem_iff.mp hz
    exact ⟨v', hmem _ hv', hsame, hle, u, hmem _ hu, hcu⟩

theorem dedup_scenario_eq :
    combineAndDeduplicate [exampleEF1] [exampleEF2] =
      [{ exampleEF1 with confidence := 8/10 }] := by
  have hle : violationLe exampleEF1 exampleEF2 := by
    norm_num [violationLe, exampleEF1, exampleEF2]
  rw [dedup_pair_eq exampleEF1 exampleEF2 hle,
    if_pos ⟨rfl, by norm_num [exampleEF1, exampleEF2]⟩]
  have hmax : max exampleEF1.confidence exampleEF2.confidence = 8/10 := by
    norm_num [exampleEF1, exampleEF2, max_def]
  rw [hmax]

/-- C2.  The deduplication pass merges a violation into the immediately
preceding kept one exactly when they have the same type and their timestamps
differ by less than 5 seconds, keeping the higher confidence (first
conjunct: the two-violation characterisation, covering both the merge and
the more-than-5s-apart no-merge cases); every input violation is represented
in the output by a kept violation of the same type less than 5 seconds away
with at least its confidence (second conjunct: a merged-away duplicate is
always within 5s of its survivor, so violations more than 5s apart are never
merged into each other); and the scenario: two `excessive_force` violations
at 10.0s (confidence 0.6) and 12.0s (confidence 0.8) merge into the single
kept earlier violation with confidence 0.8. -/
theorem dedup_merge_rule_and_scenario :
    (∀ v w : Violation, violationLe v w →
      combineAndDeduplicate [v] [w] =
        if w.vtype = v.vtype ∧ |w.timestamp - v.timestamp| < 5 then
          [{ v with confidence := max v.confidence w.confidence }]
        else [v, w]) ∧
    (∀ fV aV : List Violation, ∀ x ∈ fV ++ aV,
      ∃ y ∈ combineAndDeduplicate fV aV,
        y.vtype = x.vtype ∧ |x.timestamp - y.timestamp| < 5 ∧
        x.confidence ≤ y.confidence) ∧
    combineAndDeduplicate [exampleEF1] [exampleEF2] =
      [{ exampleEF1 with confidence := 8/10 }] :=
  ⟨dedup_pair_eq, dedup_representation, dedup_scenario_eq⟩

/-- Witness for C2 at the scenario violations. -/
theorem dedup_merge_rule_witness :
    (violationLe exampleEF1 exampleEF2 ∧
      combineAndDeduplicate [exampleEF1] [exampleEF2] =
        if exampleEF2.vtype = exampleEF1.vtype ∧
            |exampleEF2.timestamp - exampleEF1.timestamp| < 5 then
          [{ exampleEF1 with
              confidence := max exampleEF1.confidence exampleEF2.confidence }]
        else [exampleEF1, exampleEF2]) ∧
    (exampleEF1 ∈ [exampleEF1] ++ [exampleEF2] ∧
      ∃ y ∈ combineAndDeduplicate [exampleEF1] [exampleEF2],
        y.vtype = exampleEF1.vtype ∧
        |exampleEF1.timestamp - y.timestamp| < 5 ∧
        exampleEF1.confidence ≤ y.confidence) := by
  have hle : violationLe exampleEF1 exampleEF2 := by
    norm_num [violationLe, exampleEF1, exampleEF2]
  have hmem : exampleEF1 ∈ [exampleEF1] ++ [exampleEF2] := by simp
  exact ⟨⟨hle, dedup_merge_rule_and_scenario.1 exampleEF1 exampleEF2 hle⟩,
    hmem, dedup_merge_rule_and_scenario.2.1 [exampleEF1] [exampleEF2]
      exampleEF1 hmem⟩

/-- C7.  Deduplication is idempotent: running the combine-and-deduplicate
pass on its own output (with no further violations) returns the output
unchanged — no further merges and no field changes. -/
theorem dedup_idempotent (fV aV : List Violation) :
    combineAndDeduplicate (combineAndDeduplicate fV aV) [] =
      combineAndDeduplicate fV aV := by
  rcases hs : sortByTimestamp (fV ++ aV) with _ | ⟨v, rest⟩
  · have hout : combineAndDeduplicate fV aV = [] := by
      simp only [combineAndDeduplicate, hs]
    rw [hout]
    rfl
  · have hsorted : List.Sorted violationLe (v :: rest) := by
      rw [← hs]
      exact List.sorted_insertionSort violationLe (fV ++ aV)
    have hout : combineAndDeduplicate fV aV = dedupScan v rest := by
      simp only [combineAndDeduplicate, hs]
    have houtSorted : List.Sorted violationLe (dedupScan v rest) :=
      (dedupScan_sorted_ts rest v hsorted).1
    have hsep := dedupScan_separated rest v
    rw [hout]
    simp only [combineAndDeduplicate, List.append_nil]
    rw [show sortByTimestamp (dedupScan v rest) = dedupScan v rest from
      List.Sorted.insertionSort_eq houtSorted]
    rcases hd : dedupScan v rest with _ | ⟨w, tail⟩
    · rfl
    · rw [hd] at hsep
      exact dedupScan_of_separated tail w hsep

/-- C10.  During a merge of two same-type violations within 5 seconds, the
survivor is the earlier-timestamp one and the only field of it that may
change is the confidence, raised to the maximum of the two (first conjunct);
a non-mergeable pair passes through completely unchanged (second conjunct);
and in general every output violation agrees with some input violation on
every field except confidence, its confidence is at least that input's and
equals some input's confidence (third conjunct). -/
theorem dedup_merge_frame_effect :
    (∀ v w : Violation, violationLe v w → w.vtype = v.vtype →
      |w.timestamp - v.timestamp| < 5 →
      combineAndDeduplicate [v] [w] =
        [{ v with confidence := max v.confidence w.confidence }]) ∧
    (∀ v w : Violation, violationLe v w →
      ¬(w.vtype = v.vtype ∧ |w.timestamp - v.timestamp| < 5) →
      combineAndDeduplicate [v] [w] = [v, w]) ∧
    (∀ fV aV : List Violation, ∀ y ∈ combineAndDeduplicate fV aV,
      ∃ v ∈ fV ++ aV, sameExceptConfidence v y ∧ v.confidence ≤ y.confidence ∧
        ∃ u ∈ fV ++ aV, y.confidence = u.confidence) := by
  refine ⟨?_, ?_, dedup_mem_fields⟩
  · intro v w h1 h2 h3
    rw [dedup_pair_eq v w h1, if_pos ⟨h2, h3⟩]
  · intro v w h1 h2
    rw [dedup_pair_eq v w h1, if_neg h2]

/-- Witness for C10: the merge case at the scenario pair, the no-merge case
at a pair 20 seconds apart, and the frame condition at the merged output. -/
theorem dedup_merge_frame_effect_witness :
    (violationLe exampleEF1 exampleEF2 ∧
      exampleEF2.vtype = exampleEF1.vtype ∧
      |exampleEF2.timestamp - exampleEF1.timestamp| < 5 ∧
      combineAndDeduplicate [exampleEF1] [exampleEF2] =
        [{ exampleEF1 with
            confidence := max exampleEF1.confidence exampleEF2.confidence }]) ∧
    (violationLe exampleEF1 { exampleEF2 with timestamp := 30 } ∧
      ¬(({ exampleEF2 with timestamp := 30 } : Violation).vtype = exampleEF1.vtype ∧
        |({ exampleEF2 with timestamp := 30 } : Violation).timestamp -
          exampleEF1.timestamp| < 5) ∧
      combineAndDeduplicate [exampleEF1] [{ exampleEF2 with timestamp := 30 }] =
        [exampleEF1, { exampleEF2 with timestamp := 30 }]) ∧
    (({ exampleEF1 with confidence := 8/10 } : Violation) ∈
        combineAndDeduplicate [exampleEF1] [exampleEF2] ∧
      ∃ v ∈ [exampleEF1] ++ [exampleEF2],
        sameExceptConfidence v { exampleEF1 with confidence := 8/10 } ∧
        v.confidence ≤ ({ exampleEF1 with confidence := 8/10 } : Violation).confidence ∧
        ∃ u ∈ [exampleEF1] ++ [exampleEF2],
          ({ exampleEF1 with confidence := 8/10 } : Violation).confidence =
            u.confidence) := by
  have hle1 : violationLe exampleEF1 exampleEF2 := by
    norm_num [violationLe, exampleEF1, exampleEF2]
  have hty : exampleEF2.vtype = exampleEF1.vtype := rfl
  have hts : |exampleEF2.timestamp - exampleEF1.timestamp| < 5 := by
    norm_num [exampleEF1, exampleEF2]
  have hle2 : violationLe exampleEF1 { exampleEF2 with timestamp := 30 } := by
    norm_num [violationLe, exampleEF1, exampleEF2]
  have hfar : ¬(({ exampleEF2 with timestamp := 30 } : Violation).vtype =
      exampleEF1.vtype ∧
      |({ exampleEF2 with timestamp := 30 } : Violation).timestamp -
        exampleEF1.timestamp| < 5) := by
    intro hcontra
    have := hcontra.2
    norm_num [exampleEF1, exampleEF2] at this
  have hymem : ({ exampleEF1 with confidence := 8/10 } : Violation) ∈
      combineAndDeduplicate [exampleEF1] [exampleEF2] := by
    rw [dedup_scenario_eq]
    exact List.mem_singleton_self _
  exact ⟨⟨hle1, hty, hts,
      dedup_merge_frame_effect.1 exampleEF1 exampleEF2 hle1 hty hts⟩,
    ⟨hle2, hfar,
      dedup_merge_frame_effect.2.1 exampleEF1 _ hle2 hfar⟩,
    hymem,
    dedup_merge_frame_effect.2.2 [exampleEF1] [exampleEF2] _ hymem⟩

theorem extractViolationsFromAudio_mem
    (fi : String → String → List (ℕ × String))
    (gc : String → String → String) (segments : List TranscriptionSegIn)
    (V : Violation) :
    V ∈ extractViolationsFromAudio fi gc segments ↔
      ∃ seg ∈ segments, ∃ cat ∈ audioEventTriggers, ∃ trig ∈ cat.2,
        ∃ p ∈ fi trig.pattern (strLower seg.text),
          V = mkAudioViolation gc seg.start_time (strLower seg.text) trig p := by
  constructor
  · intro hV
    unfold extractViolationsFromAudio at hV
    obtain ⟨L1, hL1mem, hVL1⟩ := List.mem_flatten.mp hV
    obtain ⟨seg, hseg, hL1⟩ := List.mem_map.mp hL1mem
    subst hL1
    obtain ⟨L2, hL2mem, hVL2⟩ := List.mem_flatten.mp hVL1
    obtain ⟨cat, hcat, hL2⟩ := List.mem_map.mp hL2mem
    subst hL2
    obtain ⟨L3, hL3mem, hVL3⟩ := List.mem_flatten.mp hVL2
    obtain ⟨trig, htrig, hL3⟩ := List.mem_map.mp hL3mem
    subst hL3
    obtain ⟨p, hp, hmk⟩ := List.mem_map.mp hVL3
    exact ⟨seg, hseg, cat, hcat, trig, htrig, p, hp, hmk.symm⟩
  · rintro ⟨seg, hseg, cat, hcat, trig, htrig, p, hp, rfl⟩
    unfold extractViolationsFromAudio
    refine List.mem_flatten.mpr ⟨_, List.mem_map.mpr ⟨seg, hseg, rfl⟩, ?_⟩
    refine List.mem_flatten.mpr ⟨_, List.mem_map.mpr ⟨cat, hcat, rfl⟩, ?_⟩
    refine List.mem_flatten.mpr ⟨_, List.mem_map.mpr ⟨trig, htrig, rfl⟩, ?_⟩
    exact List.mem_map.mpr ⟨p, hp, rfl⟩

/-- C5.  Every audio-sourced violation the correlator emits for a regex match
carries the word-position-interpolated timestamp: the segment start time plus
the number of words preceding the match position divided by the assumed
3 words-per-second rate (first conjunct: every emitted violation arises from
some match and has exactly that timestamp); and conversely every match of
every trigger pattern in every segment yields such a violation in the output
(second conjunct). -/
theorem audio_violation_interpolated_timestamp
    (fi : String → String → List (ℕ × String))
    (gc : String → String → String) (segments : List TranscriptionSegIn) :
    (∀ V ∈ extractViolationsFromAudio fi gc segments,
      V.source = "audio" ∧
      ∃ seg ∈ segments, ∃ cat ∈ audioEventTriggers, ∃ trig ∈ cat.2,
        ∃ p ∈ fi trig.pattern (strLower seg.text),
          V.timestamp = seg.start_time +
            (wordsBefore (strLower seg.text) p.1 : ℚ) / 3) ∧
    (∀ seg ∈ segments, ∀ cat ∈ audioEventTriggers, ∀ trig ∈ cat.2,
      ∀ p ∈ fi trig.pattern (strLower seg.text),
        ∃ V ∈ extractViolationsFromAudio fi gc segments,
          V.source = "audio" ∧
          V.timestamp = seg.start_time +
            (wordsBefore (strLower seg.text) p.1 : ℚ) / 3 ∧
          V.severity = trig.severity ∧ V.confidence = trig.confidence ∧
          V.description = trig.description) := by
  constructor
  · intro V hV
    obtain ⟨seg, hseg, cat, hcat, trig, htrig, p, hp, rfl⟩ :=
      (extractViolationsFromAudio_mem fi gc segments V).mp hV
    refine ⟨rfl, seg, hseg, cat, hcat, trig, htrig, p, hp, ?_⟩
    simp [mkAudioViolation, estimateTimeOffset]
  · intro seg hseg cat hcat trig htrig p hp
    refine ⟨mkAudioViolation gc seg.start_time (strLower seg.text) trig p,
      (extractViolationsFromAudio_mem fi gc segments _).mpr
        ⟨seg, hseg, cat, hcat, trig, htrig, p, hp, rfl⟩,
      rfl, ?_, rfl, rfl, rfl⟩
    simp [mkAudioViolation, estimateTimeOffset]

/-- Witness for C5: a segment starting at 100s whose text matches the taser
trigger at character position 21 (four words precede the match). -/
theorem audio_violation_interpolated_timestamp_witness :
    ((⟨"officer deployed the taser now", 100⟩ : TranscriptionSegIn) ∈
        [(⟨"officer deployed the taser now", 100⟩ : TranscriptionSegIn)] ∧
      ("Use of Force",
        [(⟨"\\btaser\\b|\\btaze\\b", "high", 9/10,
          "Taser deployment threatened or initiated"⟩ : AudioTrigger),
         ⟨"\\b(dog|k-9).*(bite|fight|rip)\\b", "high", 85/100,
          "K-9 unit deployment threatened or initiated"⟩,
         ⟨"\\bstop moving\\b|\\b(help me.?)\x7b2,\x7d\\b", "high", 75/100,
          "Physical struggle and restraint of suspect"⟩]) ∈ audioEventTriggers ∧
      (⟨"\\btaser\\b|\\btaze\\b", "high", 9/10,
        "Taser deployment threatened or initiated"⟩ : AudioTrigger) ∈
        [(⟨"\\btaser\\b|\\btaze\\b", "high", 9/10,
          "Taser deployment threatened or initiated"⟩ : AudioTrigger),
         ⟨"\\b(dog|k-9).*(bite|fight|rip)\\b", "high", 85/100,
          "K-9 unit deployment threatened or initiated"⟩,
         ⟨"\\bstop moving\\b|\\b(help me.?)\x7b2,\x7d\\b", "high", 75/100,
          "Physical struggle and restraint of suspect"⟩] ∧
      (((21 : ℕ), "taser") : ℕ × String) ∈ [(((21 : ℕ), "taser") : ℕ × String)]) ∧
    ∃ V ∈ extractViolationsFromAudio (fun _ _ => [(((21 : ℕ), "taser") : ℕ × String)])
        (fun _ _ => "ctx") [(⟨"officer deployed the taser now", 100⟩ : TranscriptionSegIn)],
      V.source = "audio" ∧
      V.timestamp =
        (⟨"officer deployed the taser now", 100⟩ : TranscriptionSegIn).start_time +
          (wordsBefore
            (strLower (⟨"officer deployed the taser now", 100⟩ : TranscriptionSegIn).text)
            21 : ℚ) / 3 ∧
      V.severity = "high" ∧ V.confidence = 9/10 ∧
      V.description = "Taser deployment threatened or initiated" := by
  refine ⟨⟨List.mem_singleton_self _, ?_, ?_, List.mem_singleton_self _⟩, ?_⟩
  · unfold audioEventTriggers
    exact List.mem_cons_self _ _
  · exact List.mem_cons_self _ _
  · exact (audio_violation_interpolated_timestamp
      (fun _ _ => [(((21 : ℕ), "taser") : ℕ × String)]) (fun _ _ => "ctx")
      [⟨"officer deployed the taser now", 100⟩]).2
      ⟨"officer deployed the taser now", 100⟩ (List.mem_singleton_self _)
      _ (by unfold audioEventTriggers; exact List.mem_cons_self _ _)
      _ (List.mem_cons_self _ _)
      ((21 : ℕ), "taser") (List.mem_singleton_self _)

theorem blackoutFold_WF (A : ℚ → Prop) (d : ℚ) (hAd : A d) :
    ∀ (pairs : List (ℚ × Bool)) (st : BlackoutState) (lo : ℚ),
      List.Chain' (· < ·) (lo :: pairs.map Prod.fst) →
      (∀ t ∈ pairs.map Prod.fst, 0 ≤ t ∧ t < d ∧ A t) →
      lo < d →
      (∀ s ∈ st.segs, 0 ≤ s.start_time ∧ s.start_time < s.end_time ∧
        s.end_time ≤ lo ∧ A s.start_time ∧ A s.end_time) →
      List.Pairwise (fun a b => a.end_time < b.start_time) st.segs →
      (st.inB = true → ∃ s₀, st.startT = some s₀ ∧ 0 ≤ s₀ ∧ s₀ ≤ lo ∧ A s₀ ∧
        ∀ s ∈ st.segs, s.end_time < s₀) →
      (∀ s ∈ blackoutFinish d (pairs.foldl blackoutStep st),
          0 ≤ s.start_time ∧ s.start_time < s.end_time ∧ s.end_time ≤ d ∧
          A s.start_time ∧ A s.end_time) ∧
      List.Pairwise (fun a b => a.end_time < b.start_time)
        (blackoutFinish d (pairs.foldl blackoutStep st)) := by
  intro pairs
  induction pairs with
  | nil =>
    intro st lo _ _ hlod hsegs hpw hinB
    simp only [List.foldl_nil]
    by_cases hin : st.inB
    · obtain ⟨s₀, hs₀, hge, hle, hA, hends⟩ := hinB hin
      unfold blackoutFinish
      rw [if_pos hin, hs₀]
      constructor
      · intro s hs
        rcases List.mem_append.mp hs with hs' | hs'
        · obtain ⟨h1, h2, h3, h4, h5⟩ := hsegs s hs'
          exact ⟨h1, h2, le_trans h3 hlod.le, h4, h5⟩
        · rw [List.mem_singleton] at hs'
          subst hs'
          exact ⟨hge, lt_of_le_of_lt hle hlod, le_rfl, hA, hAd⟩
      · rw [List.pairwise_append]
        refine ⟨hpw, List.pairwise_singleton _ _, ?_⟩
        intro s hs s' hs'
        rw [List.mem_singleton] at hs'
        subst hs'
        exact hends s hs
    · unfold blackoutFinish
      rw [if_neg hin]
      refine ⟨fun s hs => ?_, hpw⟩
      obtain ⟨h1, h2, h3, h4, h5⟩ := hsegs s hs
      exact ⟨h1, h2, le_trans h3 hlod.le, h4, h5⟩
  | cons tb rest ih =>
    obtain ⟨t, b⟩ := tb
    intro st lo hchain hbds hlod hsegs hpw hinB
    simp only [List.map_cons, List.chain'_cons] at hchain
    obtain ⟨hlot, hchain'⟩ := hchain
    obtain ⟨ht0, htd, hAt⟩ := hbds t (by simp)
    have hbds' : ∀ t' ∈ rest.map Prod.fst, 0 ≤ t' ∧ t' < d ∧ A t' :=
      fun t' ht' => hbds t' (by simp [ht'])
    simp only [List.foldl_cons]
    by_cases hb : b = true
    · by_cases hin : st.inB = true
      · -- blackout continues: state unchanged
        have hstep : blackoutStep st (t, b) = st := by
          unfold blackoutStep
          rw [hb, hin]
          simp
        rw [hstep]
        refine ih st t hchain' hbds' htd ?_ hpw ?_
        · intro s hs
          obtain ⟨h1, h2, h3, h4, h5⟩ := hsegs s hs
          exact ⟨h1, h2, le_trans h3 hlot.le, h4, h5⟩
        · intro hin'
          obtain ⟨s₀, hs₀, hge, hle, hA, hends⟩ := hinB hin'
          exact ⟨s₀, hs₀, hge, le_trans hle hlot.le, hA, hends⟩
      · -- blackout starts at t
        have hstep : blackoutStep st (t, b) = ⟨true, some t, st.segs⟩ := by
          unfold blackoutStep
          rw [hb]
          simp only [Bool.not_eq_true] at hin
          rw [hin]
          simp
        rw [hstep]
        refine ih ⟨true, some t, st.segs⟩ t hchain' hbds' htd ?_ ?_ ?_
        · intro s hs
          obtain ⟨h1, h2, h3, h4, h5⟩ := hsegs s hs
          exact ⟨h1, h2, le_trans h3 hlot.le, h4, h5⟩
        · exact hpw
        · intro _
          refine ⟨t, rfl, ht0, le_rfl, hAt, ?_⟩
          intro s hs
          exact lt_of_le_of_lt (hsegs s hs).2.2.1 hlot
    · by_cases hin : st.inB = true
      · -- blackout ends at t: close the open segment
        obtain ⟨s₀, hs₀, hge, hle, hA, hends⟩ := hinB hin
        have hstep : blackoutStep st (t, b) =
            ⟨false, st.startT, st.segs ++ [⟨s₀, t⟩]⟩ := by
          unfold blackoutStep
          simp only [Bool.not_eq_true] at hb
          rw [hb, hin, hs₀]
          simp
        rw [hstep]
        refine ih ⟨false, st.startT, st.segs ++ [⟨s₀, t⟩]⟩ t hchain' hbds' htd
          ?_ ?_ ?_
        · intro s hs
          rcases List.mem_append.mp hs with hs' | hs'
          · obtain ⟨h1, h2, h3, h4, h5⟩ := hsegs s hs'
            exact ⟨h1, h2, le_trans h3 hlot.le, h4, h5⟩
          · rw [List.mem_singleton] at hs'
            subst hs'
            exact ⟨hge, lt_of_le_of_lt hle hlot, le_rfl, hA, hAt⟩
        · rw [List.pairwise_append]
          refine ⟨hpw, List.pairwise_singleton _ _, ?_⟩
          intro s hs s' hs'
          rw [List.mem_singleton] at hs'
          subst hs'
          exact hends s hs
        · intro hfalse
          exact absurd hfalse (by simp)
      · -- outside blackout: state unchanged
        have hstep : blackoutStep st (t, b) = st := by
          unfold blackoutStep
          simp only [Bool.not_eq_true] at hb hin
          rw [hb, hin]
          simp
        rw [hstep]
        refine ih st t hchain' hbds' htd ?_ hpw ?_
        · intro s hs
          obtain ⟨h1, h2, h3, h4, h5⟩ := hsegs s hs
          exact ⟨h1, h2, le_trans h3 hlot.le, h4, h5⟩
        · intro hin'
          exact absurd hin' hin

theorem rangeStep_bounds (start stop step : ℕ) (hstep : 0 < step) :
    ∀ f ∈ rangeStep start stop step, start ≤ f ∧ f < stop := by
  intro f hf
  unfold rangeStep at hf
  obtain ⟨k, hk, rfl⟩ := List.mem_map.mp hf
  rw [List.mem_range] at hk
  constructor
  · exact Nat.le_add_right _ _
  · have h1 : (k + 1) * step ≤ ((stop - start + step - 1) / step) * step :=
      Nat.mul_le_mul_right step hk
    have h2 : ((stop - start + step - 1) / step) * step ≤ stop - start + step - 1 :=
      Nat.div_mul_le_self _ _
    have h3 : (k + 1) * step = k * step + step := by ring
    omega

theorem sampleIndices_lt (si tf : ℕ) (readOk : ℕ → Bool) (hsi : 0 < si) :
    ∀ f ∈ sampleIndices si tf readOk, f < tf := by
  intro f hf
  unfold sampleIndices at hf
  have hf' := (List.takeWhile_sublist readOk).subset hf
  obtain ⟨k, hk, rfl⟩ := List.mem_map.mp hf'
  rw [List.mem_range] at hk
  have h1 : (k + 1) * si ≤ ((tf + si - 1) / si) * si := Nat.mul_le_mul_right si hk
  have h2 : ((tf + si - 1) / si) * si ≤ tf + si - 1 := Nat.div_mul_le_self _ _
  have h3 : (k + 1) * si = k * si + si := by ring
  omega

theorem sampleIndices_chain (si tf : ℕ) (readOk : ℕ → Bool) (hsi : 0 < si) :
    List.Pairwise (· < ·) (sampleIndices si tf readOk) := by
  unfold sampleIndices
  refine List.Pairwise.sublist (List.takeWhile_sublist readOk) ?_
  refine List.Pairwise.map (· * si) ?_ (List.pairwise_lt_range _)
  intro a b hab
  exact (Nat.mul_lt_mul_right hsi).mpr hab

theorem detectBlackoutSegments_WF (fps : ℚ) (tf : ℕ) (readOk isB : ℕ → Bool)
    (hfps : 0 < fps) :
    BlackoutsWF ((tf : ℚ) / fps) fps (detectBlackoutSegments fps tf readOk isB) := by
  unfold detectBlackoutSegments BlackoutsWF
  have hsi : 0 < max 1 (pyIntNat (fps * 5)) := lt_of_lt_of_le one_pos (le_max_left _ _)
  set si := max 1 (pyIntNat (fps * 5)) with hsidef
  set samples := sampleIndices si tf readOk with hsampdef
  have hlt : ∀ f ∈ samples, f < tf := sampleIndices_lt si tf readOk hsi
  have hchain : List.Pairwise (· < ·) samples := sampleIndices_chain si tf readOk hsi
  have hmapfst : (samples.map (fun (f : ℕ) => ((f : ℚ) / fps, isB f))).map Prod.fst =
      samples.map (fun (f : ℕ) => (f : ℚ) / fps) := by
    rw [List.map_map]
    rfl
  have hd0 : (0 : ℚ) ≤ (tf : ℚ) / fps := div_nonneg (Nat.cast_nonneg tf) hfps.le
  refine blackoutFold_WF (fun t => ∃ n : ℕ, t = (n : ℚ) / fps)
    ((tf : ℚ) / fps) ⟨tf, rfl⟩
    (samples.map (fun (f : ℕ) => ((f : ℚ) / fps, isB f)))
    ⟨false, none, []⟩ (-1)
    ?_ ?_ (by linarith) (by simp) (by simp) (by simp)
  · rw [hmapfst, List.chain'_cons']
    constructor
    · intro h hh
      rcases samples with _ | ⟨f, rest⟩
      · simp at hh
      · simp only [List.map_cons, List.head?_cons, Option.mem_def,
          Option.some.injEq] at hh
        subst hh
        have h0 : (0 : ℚ) ≤ (f : ℚ) / fps := div_nonneg (Nat.cast_nonneg f) hfps.le
        linarith
    · refine List.Pairwise.chain' ?_
      refine List.Pairwise.map _ ?_ hchain
      intro a b hab
      have hab' : (a : ℚ) < (b : ℚ) := by exact_mod_cast hab
      exact div_lt_div_of_pos_right hab' hfps
  · rw [hmapfst]
    intro t ht
    obtain ⟨f, hfmem, rfl⟩ := List.mem_map.mp ht
    refine ⟨div_nonneg (Nat.cast_nonneg f) hfps.le, ?_, ⟨f, rfl⟩⟩
    have hflt : (f : ℚ) < (tf : ℚ) := by exact_mod_cast hlt f hfmem
    exact div_lt_div_of_pos_right hflt hfps

theorem pairwise_segLe_of_nonoverlap :
    ∀ l : List Seg, (∀ s ∈ l, s.start_time ≤ s.end_time) →
      List.Pairwise (fun a b => a.end_time ≤ b.start_time) l →
      List.Pairwise segLe l := by
  intro l
  induction l with
  | nil => intro _ _; exact List.Pairwise.nil
  | cons a t ih =>
    intro hmem hpw
    rw [List.pairwise_cons] at hpw ⊢
    refine ⟨?_, ih (fun s hs => hmem s (List.mem_cons_of_mem _ hs)) hpw.2⟩
    intro b hb
    exact le_trans (hmem a (List.mem_cons_self _ _)) (hpw.1 b hb)

theorem usefulGo_spec (A : ℚ → Prop) (d : ℚ) (hAd : A d) :
    ∀ (bl : List Seg) (cur : ℚ),
      0 ≤ cur → cur ≤ d → A cur →
      (∀ b ∈ bl, cur ≤ b.start_time) →
      (∀ b ∈ bl, 0 ≤ b.start_time ∧ b.start_time < b.end_time ∧ b.end_time ≤ d ∧
        A b.start_time ∧ A b.end_time) →
      List.Pairwise (fun a b => a.end_time < b.start_time) bl →
      (∀ u ∈ usefulGo d cur bl,
          cur ≤ u.start_time ∧ u.start_time < u.end_time ∧ u.end_time ≤ d ∧
          A u.start_time ∧ A u.end_time) ∧
      List.Pairwise (fun a b => a.end_time ≤ b.start_time) (usefulGo d cur bl) ∧
      (∀ u ∈ usefulGo d cur bl, ∀ b ∈ bl,
        u.end_time ≤ b.start_time ∨ b.end_time ≤ u.start_time) ∧
      ((usefulGo d cur bl).map segDuration).sum =
        (d - cur) - ((bl.map segDuration).sum) := by
  intro bl
  induction bl with
  | nil =>
    intro cur hcur0 hcurd _ _ _ _
    unfold usefulGo
    by_cases h : cur < d
    · rw [if_pos h]
      refine ⟨?_, List.pairwise_singleton _ _, ?_, ?_⟩
      · intro u hu
        rw [List.mem_singleton] at hu
        subst hu
        exact ⟨le_rfl, h, le_rfl, ‹A cur›, hAd⟩
      · intro u _ b hb
        exact absurd hb (List.not_mem_nil b)
      · simp [segDuration]
    · rw [if_neg h]
      have hde : cur = d := le_antisymm hcurd (not_lt.mp h)
      refine ⟨fun u hu => absurd hu (List.not_mem_nil u), List.Pairwise.nil,
        fun u hu => absurd hu (List.not_mem_nil u), ?_⟩
      simp [hde]
  | cons b rest ih =>
    intro cur hcur0 hcurd hAcur hfirst hbounds hpw
    obtain ⟨hb0, hbse, hbed, hbAs, hbAe⟩ := hbounds b (List.mem_cons_self _ _)
    rw [List.pairwise_cons] at hpw
    have hcurb : cur ≤ b.start_time := hfirst b (List.mem_cons_self _ _)
    have hrest := ih b.end_time (le_trans hb0 hbse.le) hbed hbAe
      (fun r hr => (hpw.1 r hr).le)
      (fun r hr => hbounds r (List.mem_cons_of_mem _ hr)) hpw.2
    obtain ⟨ih1, ih2, ih3, ih4⟩ := hrest
    unfold usefulGo
    have hgapmem : ∀ u ∈ (if cur < b.start_time then [(⟨cur, b.start_time⟩ : Seg)] else []),
        u = (⟨cur, b.start_time⟩ : Seg) ∧ cur < b.start_time := by
      intro u hu
      split_ifs at hu with hlt
      · rw [List.mem_singleton] at hu
        exact ⟨hu, hlt⟩
      · exact absurd hu (List.not_mem_nil u)
    refine ⟨?_, ?_, ?_, ?_⟩
    · intro u hu
      rcases List.mem_append.mp hu with hu' | hu'
      · obtain ⟨rfl, hlt⟩ := hgapmem u hu'
        exact ⟨le_rfl, hlt, le_trans hbse.le hbed, hAcur, hbAs⟩
      · obtain ⟨h1, h2, h3, h4, h5⟩ := ih1 u hu'
        exact ⟨le_trans hcurb (le_trans hbse.le h1), h2, h3, h4, h5⟩
    · rw [List.pairwise_append]
      refine ⟨?_, ih2, ?_⟩
      · by_cases hlt : cur < b.start_time
        · rw [if_pos hlt]; exact List.pairwise_singleton _ _
        · rw [if_neg hlt]; exact List.Pairwise.nil
      · intro u hu u' hu'
        obtain ⟨rfl, _⟩ := hgapmem u hu
        exact le_trans hbse.le (ih1 u' hu').1
    · intro u hu b' hb'
      rcases List.mem_append.mp hu with hu' | hu'
      · obtain ⟨rfl, _⟩ := hgapmem u hu'
        rcases List.mem_cons.mp hb' with rfl | hb''
        · exact Or.inl le_rfl
        · exact Or.inl (le_trans hbse.le (hpw.1 b' hb'').le)
      · rcases List.mem_cons.mp hb' with rfl | hb''
        · exact Or.inr (ih1 u hu').1
        · exact ih3 u hu' b' hb''
    · rw [List.map_append, List.sum_append, ih4]
      have hgapsum : ((if cur < b.start_time then [(⟨cur, b.start_time⟩ : Seg)]
          else []).map segDuration).sum = b.start_time - cur := by
        by_cases hlt : cur < b.start_time
        · rw [if_pos hlt]; simp [segDuration]
        · rw [if_neg hlt]
          have : cur = b.start_time := le_antisymm hcurb (not_lt.mp hlt)
          simp [this]
      rw [hgapsum]
      simp only [List.map_cons, List.sum_cons, segDuration]
      ring

theorem createUsefulSegments_spec (fps d : ℚ) (bl : List Seg)
    (hd : 0 ≤ d) (hAd : ∃ n : ℕ, d = (n : ℚ) / fps) (hWF : BlackoutsWF d fps bl) :
    (∀ u ∈ createUsefulSegments d bl,
        0 ≤ u.start_time ∧ u.start_time ≤ u.end_time ∧ u.end_time ≤ d ∧
        (∃ n : ℕ, u.start_time = (n : ℚ) / fps) ∧
        (∃ m : ℕ, u.end_time = (m : ℚ) / fps)) ∧
    List.Pairwise (fun a b => a.end_time ≤ b.start_time)
      (createUsefulSegments d bl) ∧
    (∀ u ∈ createUsefulSegments d bl, ∀ b ∈ bl,
      u.end_time ≤ b.start_time ∨ b.end_time ≤ u.start_time) ∧
    ((createUsefulSegments d bl).map segDuration).sum +
      ((bl.map segDuration).sum) = d := by
  obtain ⟨hWFel, hWFpw⟩ := hWF
  by_cases hbl : bl = []
  · subst hbl
    unfold createUsefulSegments
    rw [if_pos rfl]
    refine ⟨?_, List.pairwise_singleton _ _, ?_, ?_⟩
    · intro u hu
      rw [List.mem_singleton] at hu
      subst hu
      exact ⟨le_rfl, hd, le_rfl, ⟨0, by simp⟩, hAd⟩
    · intro u _ b hb
      exact absurd hb (List.not_mem_nil b)
    · simp [segDuration]
  · unfold createUsefulSegments
    rw [if_neg hbl]
    have hsorted : List.Sorted segLe bl :=
      pairwise_segLe_of_nonoverlap bl
        (fun s hs => (hWFel s hs).2.1.le)
        (hWFpw.imp (fun h => h.le))
    rw [List.Sorted.insertionSort_eq hsorted]
    have hA0 : (∃ n : ℕ, (0 : ℚ) = (n : ℚ) / fps) := ⟨0, by simp⟩
    have h := usefulGo_spec (fun t => ∃ n : ℕ, t = (n : ℚ) / fps) d hAd bl 0
      le_rfl hd hA0 (fun b hb => (hWFel b hb).1)
      (fun b hb => (hWFel b hb)) hWFpw
    obtain ⟨h1, h2, h3, h4⟩ := h
    refine ⟨?_, h2, h3, ?_⟩
    · intro u hu
      obtain ⟨ha, hb', hc, hd', he⟩ := h1 u hu
      exact ⟨ha, hb'.le, hc, hd', he⟩
    · rw [h4]
      ring

/-- C3.  For every VideoStructure computed by the structure analyzer, the
derived usable segments are pairwise non-overlapping, sorted in ascending
start time, and the usable-segment durations plus the blackout-segment
durations sum exactly to the video duration. -/
theorem video_structure_segments_invariant (fps : ℚ) (tf : ℕ)
    (readOk isB : ℕ → Bool) (hfps : 0 < fps) :
    List.Pairwise (fun a b => a.end_time ≤ b.start_time)
      (createUsefulSegments ((tf : ℚ) / fps)
        (detectBlackoutSegments fps tf readOk isB)) ∧
    List.Pairwise segLe
      (createUsefulSegments ((tf : ℚ) / fps)
        (detectBlackoutSegments fps tf readOk isB)) ∧
    ((createUsefulSegments ((tf : ℚ) / fps)
        (detectBlackoutSegments fps tf readOk isB)).map segDuration).sum +
      (((detectBlackoutSegments fps tf readOk isB).map segDuration).sum) =
      (tf : ℚ) / fps := by
  have hWF := detectBlackoutSegments_WF fps tf readOk isB hfps
  have hd : (0 : ℚ) ≤ (tf : ℚ) / fps := div_nonneg (Nat.cast_nonneg tf) hfps.le
  obtain ⟨h1, h2, h3, h4⟩ := createUsefulSegments_spec fps ((tf : ℚ) / fps)
    (detectBlackoutSegments fps tf readOk isB) hd ⟨tf, rfl⟩ hWF
  exact ⟨h2, pairwise_segLe_of_nonoverlap _ (fun u hu => (h1 u hu).2.1) h2, h4⟩

/-- Witness for C3 at the scenario video (1 fps, 60 frames, blackout frames
20-29). -/
theorem video_structure_segments_witness :
    (0 : ℚ) < 1 ∧
    (List.Pairwise (fun a b => a.end_time ≤ b.start_time)
      (createUsefulSegments (((60 : ℕ) : ℚ) / 1)
        (detectBlackoutSegments 1 60 (fun _ => true) scenarioIsBlack)) ∧
    List.Pairwise segLe
      (createUsefulSegments (((60 : ℕ) : ℚ) / 1)
        (detectBlackoutSegments 1 60 (fun _ => true) scenarioIsBlack)) ∧
    ((createUsefulSegments (((60 : ℕ) : ℚ) / 1)
        (detectBlackoutSegments 1 60 (fun _ => true) scenarioIsBlack)).map
        segDuration).sum +
      (((detectBlackoutSegments 1 60 (fun _ => true) scenarioIsBlack).map
        segDuration).sum) = ((60 : ℕ) : ℚ) / 1) :=
  ⟨one_pos, video_structure_segments_invariant 1 60 (fun _ => true)
    scenarioIsBlack one_pos⟩

theorem uniformInner_succ_eq (fps : ℚ) (keep : ℕ → Bool) (seg : Seg)
    (total interval : ℚ) (maxF fuel : ℕ) (cur : ℚ) (acc : List SFrame) :
    uniformInner fps keep seg total interval maxF (fuel + 1) cur acc =
      if cur < total then
        (if maxF ≤ (if seg.start_time ≤ cur ∧ cur ≤ seg.end_time then
            (if keep (pyIntNat (cur * fps)) then
              acc ++ [(⟨pyIntNat (cur * fps), cur⟩ : SFrame)] else acc)
          else acc).length then
          (cur + interval,
            if seg.start_time ≤ cur ∧ cur ≤ seg.end_time then
              (if keep (pyIntNat (cur * fps)) then
                acc ++ [(⟨pyIntNat (cur * fps), cur⟩ : SFrame)] else acc)
            else acc)
        else uniformInner fps keep seg total interval maxF fuel (cur + interval)
          (if seg.start_time ≤ cur ∧ cur ≤ seg.end_time then
            (if keep (pyIntNat (cur * fps)) then
              acc ++ [(⟨pyIntNat (cur * fps), cur⟩ : SFrame)] else acc)
          else acc))
      else (cur, acc) := rfl

theorem uniformInner_spec (fps : ℚ) (keep : ℕ → Bool) (seg : Seg)
    (total interval : ℚ) (maxF : ℕ) (hint : 0 ≤ interval) :
    ∀ (fuel : ℕ) (cur : ℚ) (acc : List SFrame),
      List.Pairwise (fun a b : SFrame => a.timestamp ≤ b.timestamp) acc →
      (∀ fr ∈ acc, fr.timestamp ≤ cur) →
      List.Pairwise (fun a b : SFrame => a.timestamp ≤ b.timestamp)
        (uniformInner fps keep seg total interval maxF fuel cur acc).2 ∧
      (∀ fr ∈ (uniformInner fps keep seg total interval maxF fuel cur acc).2,
        fr.timestamp ≤ (uniformInner fps keep seg total interval maxF fuel cur acc).1) ∧
      cur ≤ (uniformInner fps keep seg total interval maxF fuel cur acc).1 ∧
      ∀ fr ∈ (uniformInner fps keep seg total interval maxF fuel cur acc).2,
        fr ∈ acc ∨ (seg.start_time ≤ fr.timestamp ∧ fr.timestamp ≤ seg.end_time) := by
  intro fuel
  induction fuel with
  | zero =>
    intro cur acc hpw hbd
    simp only [uniformInner]
    exact ⟨hpw, hbd, le_rfl, fun fr hfr => Or.inl hfr⟩
  | succ fuel ih =>
    intro cur acc hpw hbd
    rw [uniformInner_succ_eq]
    by_cases h1 : cur < total
    · rw [if_pos h1]
      set a' := (if seg.start_time ≤ cur ∧ cur ≤ seg.end_time then
          (if keep (pyIntNat (cur * fps)) then
            acc ++ [(⟨pyIntNat (cur * fps), cur⟩ : SFrame)] else acc)
          else acc) with ha'
      have hpw' : List.Pairwise (fun a b : SFrame => a.timestamp ≤ b.timestamp) a' := by
        rw [ha']
        by_cases hseg : seg.start_time ≤ cur ∧ cur ≤ seg.end_time
        · rw [if_pos hseg]
          by_cases hkeep : keep (pyIntNat (cur * fps))
          · rw [if_pos hkeep, List.pairwise_append]
            refine ⟨hpw, List.pairwise_singleton _ _, ?_⟩
            intro fr hfr fr' hfr'
            rw [List.mem_singleton] at hfr'
            subst hfr'
            exact hbd fr hfr
          · rw [if_neg hkeep]
            exact hpw
        · rw [if_neg hseg]
          exact hpw
      have hbd' : ∀ fr ∈ a', fr.timestamp ≤ cur := by
        rw [ha']
        by_cases hseg : seg.start_time ≤ cur ∧ cur ≤ seg.end_time
        · rw [if_pos hseg]
          by_cases hkeep : keep (pyIntNat (cur * fps))
          · rw [if_pos hkeep]
            intro fr hfr
            rcases List.mem_append.mp hfr with hfr' | hfr'
            · exact hbd fr hfr'
            · rw [List.mem_singleton] at hfr'
              subst hfr'
              exact le_rfl
          · rw [if_neg hkeep]
            exact hbd
        · rw [if_neg hseg]
          exact hbd
      have hmem' : ∀ fr ∈ a', fr ∈ acc ∨
          (seg.start_time ≤ fr.timestamp ∧ fr.timestamp ≤ seg.end_time) := by
        rw [ha']
        by_cases hseg : seg.start_time ≤ cur ∧ cur ≤ seg.end_time
        · rw [if_pos hseg]
          by_cases hkeep : keep (pyIntNat (cur * fps))
          · rw [if_pos hkeep]
            intro fr hfr
            rcases List.mem_append.mp hfr with hfr' | hfr'
            · exact Or.inl hfr'
            · rw [List.mem_singleton] at hfr'
              subst hfr'
              exact Or.inr hseg
          · rw [if_neg hkeep]
            exact fun fr hfr => Or.inl hfr
        · rw [if_neg hseg]
          exact fun fr hfr => Or.inl hfr
      by_cases h2 : maxF ≤ a'.length
      · rw [if_pos h2]
        dsimp only
        refine ⟨hpw', ?_, by linarith, hmem'⟩
        intro fr hfr
        have := hbd' fr hfr
        linarith
      · rw [if_neg h2]
        obtain ⟨r1, r2, r3, r4⟩ := ih (cur + interval) a' hpw'
          (fun fr hfr => by linarith [hbd' fr hfr])
        refine ⟨r1, r2, by linarith, ?_⟩
        intro fr hfr
        rcases r4 fr hfr with hfr' | hfr'
        · exact hmem' fr hfr'
        · exact Or.inr hfr'
    · rw [if_neg h1]
      exact ⟨hpw, hbd, le_rfl, fun fr hfr => Or.inl hfr⟩

theorem uniformOuter_spec (fps : ℚ) (keep : ℕ → Bool) (total interval : ℚ)
    (maxF fuel : ℕ) (hint : 0 ≤ interval) :
    ∀ (segs : List Seg) (cur : ℚ) (acc : List SFrame),
      List.Pairwise (fun a b : SFrame => a.timestamp ≤ b.timestamp) acc →
      (∀ fr ∈ acc, fr.timestamp ≤ cur) →
      List.Pairwise (fun a b : SFrame => a.timestamp ≤ b.timestamp)
        (uniformOuter fps keep total interval maxF fuel segs cur acc) ∧
      ∀ fr ∈ uniformOuter fps keep total interval maxF fuel segs cur acc,
        fr ∈ acc ∨ ∃ seg ∈ segs,
          seg.start_time ≤ fr.timestamp ∧ fr.timestamp ≤ seg.end_time := by
  intro segs
  induction segs with
  | nil =>
    intro cur acc hpw hbd
    simp only [uniformOuter]
    exact ⟨hpw, fun fr hfr => Or.inl hfr⟩
  | cons s rest ih =>
    intro cur acc hpw hbd
    simp only [uniformOuter]
    obtain ⟨r1, r2, _, r4⟩ :=
      uniformInner_spec fps keep s total interval maxF hint fuel cur acc hpw hbd
    by_cases hbrk : maxF ≤
        (uniformInner fps keep s total interval maxF fuel cur acc).2.length
    · rw [if_pos hbrk]
      refine ⟨r1, ?_⟩
      intro fr hfr
      rcases r4 fr hfr with h | h
      · exact Or.inl h
      · exact Or.inr ⟨s, List.mem_cons_self _ _, h⟩
    · rw [if_neg hbrk]
      obtain ⟨o1, o2⟩ := ih
        (uniformInner fps keep s total interval maxF fuel cur acc).1
        (uniformInner fps keep s total interval maxF fuel cur acc).2 r1 r2
      refine ⟨o1, ?_⟩
      intro fr hfr
      rcases o2 fr hfr with h | ⟨seg', hseg', h⟩
      · rcases r4 fr h with h' | h'
        · exact Or.inl h'
        · exact Or.inr ⟨s, List.mem_cons_self _ _, h'⟩
      · exact Or.inr ⟨seg', List.mem_cons_of_mem _ hseg', h⟩

theorem extractUniformFromSegments_spec (fps : ℚ) (keep : ℕ → Bool)
    (useful : List Seg) (maxF : ℕ)
    (hdur : ∀ u ∈ useful, u.start_time ≤ u.end_time) :
    (extractUniformFromSegments fps keep useful maxF).length ≤ maxF ∧
    List.Pairwise (fun a b : SFrame => a.timestamp ≤ b.timestamp)
      (extractUniformFromSegments fps keep useful maxF) ∧
    ∀ fr ∈ extractUniformFromSegments fps keep useful maxF,
      ∃ u ∈ useful, u.start_time ≤ fr.timestamp ∧ fr.timestamp ≤ u.end_time := by
  unfold extractUniformFromSegments
  by_cases htot : (useful.map segDuration).sum = 0
  · rw [if_pos htot]
    simp
  · rw [if_neg htot]
    have htot0 : 0 ≤ (useful.map segDuration).sum := by
      apply List.sum_nonneg
      intro x hx
      obtain ⟨u, hu, rfl⟩ := List.mem_map.mp hx
      exact sub_nonneg.mpr (hdur u hu)
    have hint : 0 ≤ (useful.map segDuration).sum / (maxF : ℚ) :=
      div_nonneg htot0 (Nat.cast_nonneg maxF)
    obtain ⟨hopw, homem⟩ := uniformOuter_spec fps keep
      ((useful.map segDuration).sum) ((useful.map segDuration).sum / (maxF : ℚ))
      maxF (maxF + 1) hint useful 0 [] List.Pairwise.nil (by simp)
    refine ⟨?_, ?_, ?_⟩
    · rw [List.length_take]
      exact min_le_left _ _
    · exact List.Pairwise.sublist (List.take_sublist maxF _) hopw
    · intro fr hfr
      have hfr' := List.take_subset maxF _ hfr
      rcases homem fr hfr' with h | h
      · exact absurd h (List.not_mem_nil fr)
      · exact h

theorem motionCandidates_fst (mscore : ℕ → ℕ → ℚ) :
    ∀ (idxs : List ℕ) (prev : Option ℕ), ∀ c ∈ motionCandidates mscore prev idxs,
      c.1 ∈ idxs := by
  intro idxs
  induction idxs with
  | nil =>
    intro prev c hc
    simp [motionCandidates] at hc
  | cons f rest ih =>
    intro prev c hc
    simp only [motionCandidates, List.mem_cons] at hc
    rcases hc with rfl | hc'
    · exact List.mem_cons_self _ _
    · exact List.mem_cons_of_mem _ (ih (some f) c hc')

theorem extractFramesFromSegment_mem (fps : ℚ) (readOk keep : ℕ → Bool)
    (mscore : ℕ → ℕ → ℚ) (seg : Seg) (n : ℕ) :
    ∀ fr ∈ extractFramesFromSegment fps readOk keep mscore seg n,
      ∃ f : ℕ, fr = ⟨f, (f : ℚ) / fps⟩ ∧
        pyIntNat (seg.start_time * fps) ≤ f ∧
        f < pyIntNat (seg.end_time * fps) := by
  intro fr hfr
  simp only [extractFramesFromSegment] at hfr
  obtain ⟨c, hc, rfl⟩ := List.mem_map.mp hfr
  have hc1 := List.mem_of_mem_filter hc
  have hc2 := (List.perm_insertionSort (candTsLe fps) _).mem_iff.mp hc1
  have hc3 := List.take_subset n _ hc2
  have hc4 := (List.perm_insertionSort candScoreGe _).mem_iff.mp hc3
  have hc5 := motionCandidates_fst mscore _ none c hc4
  have hc6 := List.mem_of_mem_filter hc5
  have hstep : 0 < (if pyIntNat (seg.end_time * fps) - pyIntNat (seg.start_time * fps) < n
      then 1
      else max 1 ((pyIntNat (seg.end_time * fps) - pyIntNat (seg.start_time * fps)) / (n * 3))) := by
    split_ifs
    · exact one_pos
    · exact lt_of_lt_of_le one_pos (le_max_left _ _)
  obtain ⟨hlo, hhi⟩ := rangeStep_bounds _ _ _ hstep c.1 hc6
  exact ⟨c.1, rfl, hlo, hhi⟩

theorem selectBestFrames_subset (frames : List SFrame) (t : ℕ) :
    ∀ fr ∈ selectBestFrames frames t, fr ∈ frames := by
  intro fr hfr
  simp only [selectBestFrames] at hfr
  split_ifs at hfr with hlen
  · exact hfr
  · have h1 := (List.perm_insertionSort sframeLe _).mem_iff.mp hfr
    obtain ⟨pr, hpr, rfl⟩ := List.mem_map.mp h1
    have h2 := List.take_subset t _ hpr
    have h3 := (List.perm_insertionSort
      (fun a b : ℚ × SFrame => b.1 ≤ a.1) _).mem_iff.mp h2
    obtain ⟨q, hq, hq2⟩ := List.mem_map.mp h3
    rw [← hq2]
    exact (List.of_mem_zip hq).2

theorem selectBestFrames_length_le (frames : List SFrame) (t : ℕ)
    (h : t < frames.length) : (selectBestFrames frames t).length ≤ t := by
  simp only [selectBestFrames]
  rw [if_neg (not_le.mpr h)]
  rw [List.Perm.length_eq (List.perm_insertionSort sframeLe _),
    List.length_map, List.length_take]
  exact min_le_left _ _

theorem selectBestFrames_sorted (frames : List SFrame) (t : ℕ)
    (hs : List.Pairwise (fun a b : SFrame => a.timestamp ≤ b.timestamp) frames) :
    List.Pairwise (fun a b : SFrame => a.timestamp ≤ b.timestamp)
      (selectBestFrames frames t) := by
  simp only [selectBestFrames]
  split_ifs
  · exact hs
  · exact List.sorted_insertionSort sframeLe _

theorem intelligentFold_mem (g : Seg → List SFrame) :
    ∀ (useful : List Seg) (acc : List SFrame),
      ∀ fr ∈ useful.foldl
        (fun acc seg => if segDuration seg < 3 then acc else acc ++ g seg) acc,
      fr ∈ acc ∨ ∃ seg ∈ useful, ¬segDuration seg < 3 ∧ fr ∈ g seg := by
  intro useful
  induction useful with
  | nil =>
    intro acc fr hfr
    exact Or.inl hfr
  | cons s rest ih =>
    intro acc fr hfr
    simp only [List.foldl_cons] at hfr
    by_cases hshort : segDuration s < 3
    · rw [if_pos hshort] at hfr
      rcases ih acc fr hfr with h | ⟨seg, hseg, h⟩
      · exact Or.inl h
      · exact Or.inr ⟨seg, List.mem_cons_of_mem _ hseg, h⟩
    · rw [if_neg hshort] at hfr
      rcases ih (acc ++ g s) fr hfr with h | ⟨seg, hseg, h⟩
      · rcases List.mem_append.mp h with h' | h'
        · exact Or.inl h'
        · exact Or.inr ⟨s, List.mem_cons_self _ _, hshort, h'⟩
      · exact Or.inr ⟨seg, List.mem_cons_of_mem _ hseg, h⟩

theorem extractIntelligentAdaptive_spec (fps : ℚ) (readOk keep : ℕ → Bool)
    (mscore : ℕ → ℕ → ℚ) (useful : List Seg) (maxF : ℕ) :
    (extractIntelligentAdaptive fps readOk keep mscore useful maxF).length ≤ maxF ∧
    List.Pairwise (fun a b : SFrame => a.timestamp ≤ b.timestamp)
      (extractIntelligentAdaptive fps readOk keep mscore useful maxF) ∧
    ∀ fr ∈ extractIntelligentAdaptive fps readOk keep mscore useful maxF,
      ∃ u ∈ useful, 3 ≤ segDuration u ∧
        ∃ f : ℕ, fr = ⟨f, (f : ℚ) / fps⟩ ∧
          pyIntNat (u.start_time * fps) ≤ f ∧
          f < pyIntNat (u.end_time * fps) := by
  simp only [extractIntelligentAdaptive]
  set collected := useful.foldl
    (fun acc seg => if segDuration seg < 3 then acc
      else acc ++ extractFramesFromSegment fps readOk keep mscore seg
        (segmentQuota maxF ((useful.map segDuration).sum) (segDuration seg))) []
    with hcollected
  set sorted := List.insertionSort sframeLe collected with hsorted
  have hsortedPW : List.Pairwise (fun a b : SFrame => a.timestamp ≤ b.timestamp)
      sorted := List.sorted_insertionSort sframeLe collected
  have hmemsorted : ∀ fr ∈ sorted, fr ∈ collected := by
    intro fr hfr
    exact (List.perm_insertionSort sframeLe collected).mem_iff.mp hfr
  have hmemconc : ∀ fr ∈ collected,
      ∃ u ∈ useful, 3 ≤ segDuration u ∧
        ∃ f : ℕ, fr = ⟨f, (f : ℚ) / fps⟩ ∧
          pyIntNat (u.start_time * fps) ≤ f ∧
          f < pyIntNat (u.end_time * fps) := by
    intro fr hfr
    rw [hcollected] at hfr
    rcases intelligentFold_mem
      (fun seg => extractFramesFromSegment fps readOk keep mscore seg
        (segmentQuota maxF ((useful.map segDuration).sum) (segDuration seg)))
      useful [] fr hfr with h | ⟨seg, hseg, hlong, h⟩
    · exact absurd h (List.not_mem_nil fr)
    · obtain ⟨f, hf, hlo, hhi⟩ := extractFramesFromSegment_mem fps readOk keep
        mscore seg _ fr h
      exact ⟨seg, hseg, not_lt.mp hlong, f, hf, hlo, hhi⟩
  by_cases hover : maxF < sorted.length
  · rw [if_pos hover]
    refine ⟨selectBestFrames_length_le sorted maxF hover,
      selectBestFrames_sorted sorted maxF hsortedPW, ?_⟩
    intro fr hfr
    exact hmemconc fr (hmemsorted fr (selectBestFrames_subset sorted maxF fr hfr))
  · rw [if_neg hover]
    exact ⟨not_lt.mp hover, hsortedPW, fun fr hfr => hmemconc fr (hmemsorted fr hfr)⟩

theorem pyIntNat_natCast (n : ℕ) : pyIntNat (n : ℚ) = n := by
  simp [pyIntNat]

theorem pyIntNat_aligned (fps : ℚ) (hfps : fps ≠ 0) (n : ℕ) :
    pyIntNat (((n : ℚ) / fps) * fps) = n := by
  rw [div_mul_cancel₀ _ hfps, pyIntNat_natCast]

theorem scenarioBlackouts_eq : scenarioBlackouts = [⟨20, 30⟩] := by
  have hsi : max 1 (pyIntNat ((1 : ℚ) * 5)) = 5 := by
    norm_num [pyIntNat]
    decide
  have hsamp : sampleIndices 5 60 (fun _ => true) =
      [0, 5, 10, 15, 20, 25, 30, 35, 40, 45, 50, 55] := by decide
  show blackoutFinish (((60 : ℕ) : ℚ) / 1)
      (((sampleIndices (max 1 (pyIntNat ((1 : ℚ) * 5))) 60 (fun _ => true)).map
        (fun (f : ℕ) => ((f : ℚ) / 1, scenarioIsBlack f))).foldl blackoutStep
        ⟨false, none, []⟩) = [⟨20, 30⟩]
  rw [hsi, hsamp]
  norm_num [blackoutStep, blackoutFinish, scenarioIsBlack]

theorem scenarioUseful_eq : scenarioUseful = [⟨0, 20⟩, ⟨30, 60⟩] := by
  unfold scenarioUseful createUsefulSegments
  rw [scenarioBlackouts_eq]
  norm_num [usefulGo, List.insertionSort, List.orderedInsert]

theorem scenarioUniform_eq :
    scenarioUniform = [⟨0, 0⟩, ⟨8, 25/3⟩, ⟨16, 50/3⟩] := by
  unfold scenarioUniform extractUniformFromSegments
  rw [scenarioUseful_eq]
  norm_num [segDuration, uniformOuter, uniformInner, pyIntNat]
  decide

/-- C1.  For every video (any fps, frame count, readability and blackness
oracles) and every frame budget N, both the uniform and the
intelligent-adaptive sampling strategies return at most N frames, sorted by
non-decreasing timestamp, with every frame timestamp inside some usable
segment and strictly inside no detected blackout segment; and on the 60s
scenario video with a blackout over [20,30) and the uniform strategy at
budget 6, no returned frame has a timestamp in [20,30). -/
theorem frame_sampler_output_ok (fps : ℚ) (tf N : ℕ)
    (readOk isB keepU readOkI keepI : ℕ → Bool) (mscore : ℕ → ℕ → ℚ)
    (hfps : 0 < fps) :
    SamplerOutputOK (detectBlackoutSegments fps tf readOk isB)
      (createUsefulSegments ((tf : ℚ) / fps)
        (detectBlackoutSegments fps tf readOk isB))
      (extractUniformFromSegments fps keepU
        (createUsefulSegments ((tf : ℚ) / fps)
          (detectBlackoutSegments fps tf readOk isB)) N) N ∧
    SamplerOutputOK (detectBlackoutSegments fps tf readOk isB)
      (createUsefulSegments ((tf : ℚ) / fps)
        (detectBlackoutSegments fps tf readOk isB))
      (extractIntelligentAdaptive fps readOkI keepI mscore
        (createUsefulSegments ((tf : ℚ) / fps)
          (detectBlackoutSegments fps tf readOk isB)) N) N ∧
    ∀ fr ∈ scenarioUniform, ¬(20 ≤ fr.timestamp ∧ fr.timestamp < 30) := by
  have hWF := detectBlackoutSegments_WF fps tf readOk isB hfps
  have hd : (0 : ℚ) ≤ (tf : ℚ) / fps := div_nonneg (Nat.cast_nonneg tf) hfps.le
  obtain ⟨h1, h2, h3, h4⟩ := createUsefulSegments_spec fps ((tf : ℚ) / fps)
    (detectBlackoutSegments fps tf readOk isB) hd ⟨tf, rfl⟩ hWF
  have hnoB : ∀ (t : ℚ),
      (∃ u ∈ createUsefulSegments ((tf : ℚ) / fps)
          (detectBlackoutSegments fps tf readOk isB),
        u.start_time ≤ t ∧ t ≤ u.end_time) →
      ∀ b ∈ detectBlackoutSegments fps tf readOk isB,
        ¬(b.start_time < t ∧ t < b.end_time) := by
    rintro t ⟨u, hu, hut1, hut2⟩ b hb ⟨hbt1, hbt2⟩
    rcases h3 u hu b hb with h | h
    · linarith
    · linarith
  refine ⟨?_, ?_, ?_⟩
  · unfold SamplerOutputOK
    obtain ⟨ha, hb', hc⟩ := extractUniformFromSegments_spec fps keepU
      (createUsefulSegments ((tf : ℚ) / fps)
        (detectBlackoutSegments fps tf readOk isB)) N
      (fun u hu => (h1 u hu).2.1)
    exact ⟨ha, hb', fun fr hfr =>
      ⟨hc fr hfr, hnoB fr.timestamp (hc fr hfr)⟩⟩
  · unfold SamplerOutputOK
    obtain ⟨ha, hb', hc⟩ := extractIntelligentAdaptive_spec fps readOkI keepI
      mscore (createUsefulSegments ((tf : ℚ) / fps)
        (detectBlackoutSegments fps tf readOk isB)) N
    have hmem : ∀ fr ∈ extractIntelligentAdaptive fps readOkI keepI mscore
        (createUsefulSegments ((tf : ℚ) / fps)
          (detectBlackoutSegments fps tf readOk isB)) N,
        ∃ u ∈ createUsefulSegments ((tf : ℚ) / fps)
          (detectBlackoutSegments fps tf readOk isB),
          u.start_time ≤ fr.timestamp ∧ fr.timestamp ≤ u.end_time := by
      intro fr hfr
      obtain ⟨u, hu, hdur3, f, hfrE, hlo, hhi⟩ := hc fr hfr
      obtain ⟨hge0, hse, hle, ⟨n, hn⟩, ⟨m, hm⟩⟩ := h1 u hu
      have hfpsne : fps ≠ 0 := hfps.ne'
      have hsn : pyIntNat (u.start_time * fps) = n := by
        rw [hn, pyIntNat_aligned fps hfpsne]
      have hem : pyIntNat (u.end_time * fps) = m := by
        rw [hm, pyIntNat_aligned fps hfpsne]
      rw [hsn] at hlo
      rw [hem] at hhi
      subst hfrE
      refine ⟨u, hu, ?_, ?_⟩
      · show u.start_time ≤ (f : ℚ) / fps
        rw [hn]
        gcongr
      · show (f : ℚ) / fps ≤ u.end_time
        rw [hm]
        gcongr
    exact ⟨ha, hb', fun fr hfr =>
      ⟨hmem fr hfr, hnoB fr.timestamp (hmem fr hfr)⟩⟩
  · intro fr hfr
    rw [scenarioUniform_eq] at hfr
    simp only [List.mem_cons, List.not_mem_nil, or_false] at hfr
    rcases hfr with rfl | rfl | rfl
    all_goals rintro ⟨hk1, hk2⟩
    all_goals norm_num at hk1

/-- Witness for C1 at the scenario video: 1 fps, 60 frames, blackout frames
20-29, all frames readable, zero motion scores, budget 6. -/
theorem frame_sampler_output_witness :
    (0 : ℚ) < 1 ∧
    (SamplerOutputOK (detectBlackoutSegments 1 60 (fun _ => true) scenarioIsBlack)
      (createUsefulSegments (((60 : ℕ) : ℚ) / 1)
        (detectBlackoutSegments 1 60 (fun _ => true) scenarioIsBlack))
      (extractUniformFromSegments 1 (fun _ => true)
        (createUsefulSegments (((60 : ℕ) : ℚ) / 1)
          (detectBlackoutSegments 1 60 (fun _ => true) scenarioIsBlack)) 6) 6 ∧
    SamplerOutputOK (detectBlackoutSegments 1 60 (fun _ => true) scenarioIsBlack)
      (createUsefulSegments (((60 : ℕ) : ℚ) / 1)
        (detectBlackoutSegments 1 60 (fun _ => true) scenarioIsBlack))
      (extractIntelligentAdaptive 1 (fun _ => true) (fun _ => true)
        (fun _ _ => 0)
        (createUsefulSegments (((60 : ℕ) : ℚ) / 1)
          (detectBlackoutSegments 1 60 (fun _ => true) scenarioIsBlack)) 6) 6 ∧
    ∀ fr ∈ scenarioUniform, ¬(20 ≤ fr.timestamp ∧ fr.timestamp < 30)) :=
  ⟨one_pos, frame_sampler_output_ok 1 60 6 (fun _ => true) scenarioIsBlack
    (fun _ => true) (fun _ => true) (fun _ => true) (fun _ _ => 0) one_pos⟩
